import Mathlib

/-!
Verification development for the zei confidential-to-anonymous conversion
subsystem.  The Rust sources are shallowly embedded: pure functions become
Lean functions, machine integers become `Nat`/`Int` with explicit bounds,
fallible code returns `Option`/`Except`, and the two scalar fields are
`ZMod q_S` (Ristretto scalar field) and `ZMod p_BLS` (BLS12-381 scalar
field).  Components of the repository that are not part of the provided
sources (the SimFr field-simulation library, the TurboCS constraint-system
builder, the Rescue permutation, the delegated Chaum-Pedersen prover and
the PLONK prover/verifier) are modelled from the specification; each such
definition carries a doc comment saying so.
-/

namespace Zei

/-- Order of the Ristretto (curve25519) scalar field, the "source" scalar
field `ScalarS`: `2^252 + 27742317777372353535851937790883648493`. -/
def q_S : ℕ := 7237005577332262213973186563042994240857116359379907606001950938285454250989

/-- Order of the BLS12-381 scalar field, the "circuit" scalar field
`ScalarC`. -/
def p_BLS : ℕ := 52435875175126190479447740508185965837690552500527637822603658699938581184513

/-- The source scalar field `ScalarS` (`RistrettoScalar`). -/
abbrev RistScalar := ZMod q_S

/-- The circuit scalar field `ScalarC` (`BLSScalar`). -/
abbrev BLS := ZMod p_BLS

instance : NeZero q_S := ⟨by norm_num [q_S]⟩

instance : NeZero p_BLS := ⟨by norm_num [p_BLS]⟩

/-! ## Little-endian byte strings

`to_bytes` of both scalar types produces the 32-byte little-endian
encoding of the canonical representative; `BigUint::from_bytes_le`
reads such a string back.  Bytes are modelled as natural numbers
(each `< 256` for genuine encodings). -/

/-- Little-endian byte encoding of `n`, padded/truncated to `len` bytes
(the Rust `to_bytes` always emits exactly 32 bytes). -/
def toBytesLE : ℕ → ℕ → List ℕ
  | 0, _ => []
  | len + 1, n => n % 256 :: toBytesLE len (n / 256)

/-- `BigUint::from_bytes_le`: little-endian byte decoding. -/
def fromBytesLE : List ℕ → ℕ
  | [] => 0
  | b :: bs => b + 256 * fromBytesLE bs

/-! ## `Scalar::from_bytes` on the Ristretto scalar (src/src/algebra/ristretto.rs)

```rust
fn from_bytes(bytes: &[u8]) -> Scalar{
    let mut array  = [0u8; 32];
    array.copy_from_slice(bytes);
    Scalar::from_bits(array)
}
```

`copy_from_slice` panics whenever the slice lengths differ, i.e. whenever
the input is not exactly 32 bytes; the panic is modelled by `none`. -/

/-- Modelled from the external curve25519-dalek crate's documented
`Scalar::from_bits`, which constructs a scalar "from the low 255 bits of a
256-bit integer": the top bit of byte 31 is cleared and the remaining 255
bits are kept verbatim, with no reduction modulo `q_S`.  The resulting
(possibly non-canonical) scalar is represented by its raw integer value. -/
def scalar_from_bits (bytes : List ℕ) : ℕ :=
  fromBytesLE bytes % 2 ^ 255

/-- Shallow embedding of `<Scalar as ZeiScalar>::from_bytes`
(src/src/algebra/ristretto.rs lines 44-48).  `none` models the
`copy_from_slice` panic on a slice whose length is not 32. -/
def scalar_from_bytes (bytes : List ℕ) : Option ℕ :=
  if bytes.length = 32 then some (scalar_from_bits bytes) else none

/-! ## Multi-exponentiation (src/src/algebra/multi_exp.rs)

The functions are generic over a group `G` and its scalar field.  A scalar
is represented by its canonical integer value (the value encoded by
`to_bytes`, always `< 2^256`); group scalar multiplication by a scalar is
`n • p` for the canonical representative `n`.  Group elements live in an
arbitrary additive commutative group. -/

section MultiExp

variable {G : Type} [AddCommGroup G]

/-- Shallow embedding of `naive_multi_exp` (multi_exp.rs lines 22-33): a
fold of scalar multiplications summed from the identity. -/
def naive_multi_exp (scalars : List ℕ) (points : List G) : G :=
  (scalars.zip points).foldl (fun r sp => r + sp.1 • sp.2) 0

/-- Length (in digits) of the radix-`2^w` decomposition used by
`scalar_to_radix_2_power_w` for 32-byte scalars: `⌊256/w⌋ + 1`. -/
def digitsLen (w : ℕ) : ℕ := 256 / w + 1

/-- One step per digit of the signed radix-`2^w` decomposition: emit the
least-significant digit in `[-2^(w-1), 2^(w-1))` and carry into the rest. -/
def radixAux (w : ℕ) : ℕ → ℕ → List ℤ
  | 0, _ => []
  | len + 1, n =>
      let d := n % 2 ^ w
      if d < 2 ^ (w - 1) then (d : ℤ) :: radixAux w len (n / 2 ^ w)
      else ((d : ℤ) - 2 ^ w) :: radixAux w len (n / 2 ^ w + 1)

/-- Modelled from the spec: `scalar_to_radix_2_power_w` (declared in the
groups module, whose source is not provided) decodes a 32-byte scalar to
signed radix-`2^w` digits in `[-2^(w-1), 2^(w-1)]`, producing a
fixed-length digit vector (a zero scalar still yields digits, as required
by the repository's own multi-exp tests). -/
def scalar_to_radix_2_power_w (w : ℕ) (n : ℕ) : List ℤ :=
  radixAux w (digitsLen w) n

/-- One bucket update of the Pippenger inner loop: `buckets[|d|-1] ± e`. -/
def bucketAccum (buckets : List G) (d : ℤ) (e : G) : List G :=
  if 0 < d then
    buckets.set (d.toNat - 1) (buckets.getD (d.toNat - 1) 0 + e)
  else if d < 0 then
    buckets.set ((-d).toNat - 1) (buckets.getD ((-d).toNat - 1) 0 - e)
  else buckets

/-- The classical two-running-sums bucket fold:
`sum += intermediate += buckets[i]` for `i` from high to low, both sums
initialised with the last bucket. -/
def twoSumsFold (buckets : List G) : G :=
  ((List.range (buckets.length - 1)).reverse.foldl
    (fun st i => (st.1 + buckets.getD i 0, st.2 + st.1 + buckets.getD i 0))
    ((buckets.getLast?).getD 0, (buckets.getLast?).getD 0)).2

/-- One column of the Pippenger loop (multi_exp.rs lines 74-101): refill
`m = 2^w/2` buckets from the digits at position `index` (skipping inputs
whose digit vector is too short), then fold them. -/
def pipCol (digits_vec : List (List ℤ)) (elems : List G) (m : ℕ) (index : ℕ) : G :=
  let buckets0 : List G := List.replicate m 0
  let buckets := (digits_vec.zip elems).foldl
    (fun bs de =>
      if index ≥ de.1.length then bs else bucketAccum bs (de.1.getD index 0) de.2)
    buckets0
  twoSumsFold buckets

/-- Body of `pippenger` after the window size `w` has been fixed from the
input size.  The `cols.next().unwrap()` on the iterator of columns is
modelled by the `match`: `none` models the panic when there is no column
at all. -/
def pippengerBody (w : ℕ) (scalars : List ℕ) (elems : List G) : Option G :=
  let two_power_w : ℕ := 2 ^ w
  let digits_vec := scalars.map (scalar_to_radix_2_power_w w)
  let digits_count := digits_vec.foldl (fun acc ds => max acc ds.length) 0
  let cols := (List.range digits_count).reverse.map
    (pipCol digits_vec elems (two_power_w / 2))
  match cols with
  | [] => none
  | hi_col :: rest =>
      some (rest.foldl (fun total p => two_power_w • total + p) hi_col)

/-- Shallow embedding of `pippenger` (multi_exp.rs lines 48-106): window
size 6 for fewer than 500 inputs, 7 for fewer than 800, else 8. -/
def pippenger (scalars : List ℕ) (elems : List G) : Option G :=
  let size := scalars.length
  pippengerBody (if size < 500 then 6 else if size < 800 then 7 else 8)
    scalars elems

/-- Shallow embedding of `vartime_multi_exp` (multi_exp.rs lines 43-45). -/
def vartime_multi_exp (scalars : List ℕ) (points : List G) : Option G :=
  pippenger scalars points

/-! ### Correctness of the radix decomposition -/

/-- Value of a signed radix-`2^w` digit list. -/
def limbsValW (w : ℕ) : List ℤ → ℤ
  | [] => 0
  | d :: ds => d + 2 ^ w * limbsValW w ds

/-! ### Bucket accounting

`wSumFrom k bs` is the weighted bucket sum `Σ (k+i+1) • bs[i]`; the
Pippenger column equals `wSumFrom 0` of its final buckets. -/

/-- Weighted sum of a bucket list, weights starting at `k + 1`. -/
def wSumFrom (k : ℕ) : List G → G
  | [] => 0
  | b :: bs => (k + 1) • b + wSumFrom (k + 1) bs

/-- Abbreviation for the full weighted bucket sum. -/
def wSum (bs : List G) : G := wSumFrom 0 bs

/-- Column term contributed by one `(digits, elem)` pair at `index`;
inputs whose digit vector is too short contribute nothing (the `continue`
in the source). -/
def colTerm (index : ℕ) (de : List ℤ × G) : G :=
  if index < de.1.length then de.1.getD index 0 • de.2 else 0

end MultiExp

/-! ## SimFr limb arithmetic (field-simulation layer)

Modelled from the spec: the SimFr library (zei_crypto::field_simulation /
zei_plonk SimFrVar, not among the provided sources) represents a source
scalar as `NUM_OF_LIMBS = 6` limbs of `BIT_PER_LIMB = 43` bits.  In-circuit
addition and subtraction are limb-wise with no carry propagation,
multiplication is schoolbook over limbs producing `2L-1` double-width
limbs, and `enforce_zero` is the only operation that constrains a value
modulo the source modulus `q_S`.  The circuit range-checks keep every limb
far below the circuit modulus, so limb variables are faithfully modelled
by (possibly negative) integers. -/

/-- `BIT_PER_LIMB` (confidential_to_anonymous.rs imports it from
zei_crypto::field_simulation). -/
def BIT_PER_LIMB : ℕ := 43

/-- `NUM_OF_LIMBS`. -/
def NUM_OF_LIMBS : ℕ := 6

/-- Value of a limb list: `Σ limb_i · 2^(43·i)`. -/
def limbsVal : List ℤ → ℤ
  | [] => 0
  | x :: xs => x + 2 ^ BIT_PER_LIMB * limbsVal xs

/-- Limb-wise addition without carries (spec §4.3 Add/Sub). -/
def addLimbs : List ℤ → List ℤ → List ℤ
  | [], b => b
  | a, [] => a
  | x :: xs, y :: ys => (x + y) :: addLimbs xs ys

/-- Limb-wise negation. -/
def negLimbs (a : List ℤ) : List ℤ := a.map Neg.neg

/-- Limb-wise subtraction without carries. -/
def subLimbs (a b : List ℤ) : List ℤ := addLimbs a (negLimbs b)

/-- Schoolbook limb multiplication (spec §4.3 Mul: `2L-1` double-width
limbs, limb `i` of the result collecting all products `a_j · b_k` with
`j + k = i`). -/
def mulLimbs : List ℤ → List ℤ → List ℤ
  | [], _ => []
  | x :: xs, b => addLimbs (b.map (fun y => x * y)) (0 :: mulLimbs xs b)

/-- Step 5 of `build_bar_to_abar_cs` at the limb level: the three SimFr
products `β·x`, `(β·λ)·y`, `λ·b`, the limb-wise sums forming `rhs`, the
limb-wise difference `lhs = (s_1 + λ·s_2) - a`, and the final
`eqn = rhs - lhs` handed to `enforce_zero`. -/
def sigmaEqnLimbs (xl yl al bl betal lambdal betalambdal sl : List ℤ) : List ℤ :=
  let beta_x := mulLimbs betal xl
  let beta_lambda_y := mulLimbs betalambdal yl
  let lambda_b := mulLimbs lambdal bl
  let rhs := addLimbs (addLimbs beta_x beta_lambda_y) lambda_b
  let s1_plus_lambda_s2_minus_a := subLimbs sl al
  subLimbs rhs s1_plus_lambda_s2_minus_a

/-- Modelled from the spec: the single `enforce_zero` call constrains the
integer value of its argument to vanish modulo `q_S` (spec §3: "The only
way to enforce an equation `a ≡ b (mod q_S)` is via `enforce_zero`"). -/
def enforce_zero_holds (limbs : List ℤ) : Prop :=
  limbsVal limbs % (q_S : ℤ) = 0

/-- The constraint recorded by step 5 for one witness assignment of the
limb variables. -/
def sigmaCheckHolds (xl yl al bl betal lambdal betalambdal sl : List ℤ) : Prop :=
  enforce_zero_holds (sigmaEqnLimbs xl yl al bl betal lambdal betalambdal sl)

/-! ## TurboCS model

Modelled from the spec: the TurboPlonk constraint-system builder
(zei_plonk, not among the provided sources) owns a witness table and a
gate list; `prepare_pi_variable` marks wires as public inputs in order.
In this shallow embedding every wire is identified with the value the
honest builder assigns to it (the builder computes every intermediate
wire as a function of its inputs), so a "variable" is simply a `BLS`
value; the state keeps the ordered public-input values and the list of
constraints the gates impose on the witness. -/

/-- Kind of a recorded constraint. -/
inductive CTag where
  | rangeBits
  | boundedRange
  | gateEq
  | enforceZero
deriving DecidableEq

/-- A recorded constraint: its kind and the statement it imposes on the
(honest) witness values. -/
structure Con where
  tag : CTag
  statement : Prop

/-- State of the modelled TurboCS builder. -/
structure TCS where
  pubs : List BLS
  cons : List Con

def TCS.empty : TCS := ⟨[], []⟩

/-- `cs.new_variable(v)`: wires are identified with their values. -/
def TCS.new_variable (cs : TCS) (v : BLS) : TCS × BLS := (cs, v)

/-- `cs.zero_var()`. -/
def TCS.zero_var : BLS := 0

def TCS.addCon (cs : TCS) (t : CTag) (p : Prop) : TCS :=
  { cs with cons := cs.cons ++ [⟨t, p⟩] }

/-- `cs.equal(a, b)`. -/
def TCS.equal (cs : TCS) (a b : BLS) : TCS := cs.addCon CTag.gateEq (a = b)

/-- `cs.linear_combine(&[a,b,c,d], k0, k1, k2, k3)`: a gate whose output
wire carries `k0·a + k1·b + k2·c + k3·d`. -/
def TCS.linear_combine (cs : TCS) (a b c d k0 k1 k2 k3 : BLS) : TCS × BLS :=
  (cs, k0 * a + k1 * b + k2 * c + k3 * d)

/-- `cs.prepare_pi_variable(v)`. -/
def TCS.prepare_pi_variable (cs : TCS) (v : BLS) : TCS :=
  { cs with pubs := cs.pubs ++ [v] }

/-- `cs.rescue_hash(&StateVar::new([a,b,c,d]))`, parameterised by the
external Rescue permutation. -/
def TCS.rescue_hash (rescue : BLS × BLS × BLS × BLS → BLS × BLS × BLS × BLS)
    (cs : TCS) (st : BLS × BLS × BLS × BLS) : TCS × (BLS × BLS × BLS × BLS) :=
  (cs, rescue st)

/-- All recorded constraints hold. -/
def TCS.satisfied (cs : TCS) : Prop := ∀ c ∈ cs.cons, c.statement

/-! ### SimFr allocation -/

/-- The 6 limbs (low to high) of `SimFr::from(&n)` as circuit-field
elements: 43-bit chunks of `n`. -/
def simFrLimbs (n : ℕ) : List BLS :=
  [((n % 2 ^ 43 : ℕ) : BLS),
   ((n / 2 ^ 43 % 2 ^ 43 : ℕ) : BLS),
   ((n / 2 ^ 86 % 2 ^ 43 : ℕ) : BLS),
   ((n / 2 ^ 129 % 2 ^ 43 : ℕ) : BLS),
   ((n / 2 ^ 172 % 2 ^ 43 : ℕ) : BLS),
   ((n / 2 ^ 215 % 2 ^ 43 : ℕ) : BLS)]

/-- `BigUint::from_bytes_le(&s.to_bytes())` for a source scalar. -/
def lift_to_bls_nat (s : RistScalar) : ℕ := fromBytesLE (toBytesLE 32 s.val)

/-- Limb values as integers (the canonical representatives: every limb a
range check touches stays far below the circuit modulus). -/
def limbsZ (limbs : List BLS) : List ℤ := limbs.map (fun v => (v.val : ℤ))

/-- Constraint recorded by `SimFrVar::alloc_witness` /
`SimFrVar::alloc_input` (spec §4.3): each limb wire range-checked to
`BIT_PER_LIMB` bits. -/
def rangeCheckStmt (limbs : List BLS) : Prop :=
  ∀ v ∈ limbs, v.val < 2 ^ BIT_PER_LIMB

/-- Per-limb bound imposed by `alloc_witness_bounded_total_bits` with a
total bound of `t` bits: full limbs stay 43-bit, the top used limb is
bit-decomposed down to the remaining bits, and all higher limbs are
zero. -/
def limbBoundNat (t i : ℕ) : ℕ :=
  if BIT_PER_LIMB * (i + 1) ≤ t then 2 ^ BIT_PER_LIMB
  else if BIT_PER_LIMB * i < t then 2 ^ (t - BIT_PER_LIMB * i)
  else 1

/-- Constraint recorded by `SimFrVar::alloc_witness_bounded_total_bits`
(spec §4.3: the allocation "additionally bit-decomposes the top limb so
that `Σ limb_i · 2^(B·i) < 2^t`"). -/
def boundedTotalStmt (t : ℕ) (limbs : List BLS) : Prop :=
  limbs.length = NUM_OF_LIMBS ∧
    ∀ i < NUM_OF_LIMBS, (limbs.getD i 0).val < limbBoundNat t i

/-- `SimFrVar::alloc_witness(&mut cs, &v)`. -/
def alloc_witness (cs : TCS) (n : ℕ) : TCS × List BLS :=
  (cs.addCon CTag.rangeBits (rangeCheckStmt (simFrLimbs n)), simFrLimbs n)

/-- `SimFrVar::alloc_witness_bounded_total_bits(&mut cs, &v, t)`. -/
def alloc_witness_bounded_total_bits (cs : TCS) (n t : ℕ) : TCS × List BLS :=
  (cs.addCon CTag.boundedRange (boundedTotalStmt t (simFrLimbs n)), simFrLimbs n)

/-- `SimFrVar::alloc_input(&mut cs, &v)` (public-input limbs get the same
range check; the wires are later passed to `prepare_pi_variable`). -/
def alloc_input (cs : TCS) (n : ℕ) : TCS × List BLS :=
  (cs.addCon CTag.rangeBits (rangeCheckStmt (simFrLimbs n)), simFrLimbs n)

/-! ### Sigma-proof artifacts (spec §3)

Modelled from the spec: `ZKPartProof` and `NonZKState` live in
zei_crypto::delegated_chaum_pedersen, which is not among the provided
sources.  Only the fields that the provided sources read are modelled;
the two source-curve randomizer commitments of `ZKPartProof` are consumed
exclusively inside the (abstract) sigma verifier and are therefore not
carried here. -/

structure ZKPartProof where
  non_zk_part_state_commitment : BLS
  s_1 : RistScalar
  s_2 : RistScalar

structure NonZKState where
  x : RistScalar
  y : RistScalar
  a : RistScalar
  b : RistScalar
  r : BLS

/-! ## The BAR-to-ABAR constraint system
(confidential_to_anonymous.rs lines 349-579) -/

/-- `BLSScalar::from(&BigUint::one().shl(BIT_PER_LIMB * i))`. -/
def stepPow (i : ℕ) : BLS := ((2 ^ (BIT_PER_LIMB * i) : ℕ) : BLS)

/-- Output wire of the two `linear_combine` gates that compress one chunk
of (up to five) limb wires in step 3 of `build_bar_to_abar_cs`: absent
limbs default to `zero_var`, and a fifth limb is folded by a second
gate. -/
def compressChunkVal (limbs_var : List BLS) : BLS :=
  let sum_var := 1 * limbs_var.getD 0 0 + stepPow 1 * limbs_var.getD 1 0
    + stepPow 2 * limbs_var.getD 2 0 + stepPow 3 * limbs_var.getD 3 0
  if limbs_var.length = 5 then
    1 * sum_var + stepPow 4 * limbs_var.getD 4 0 + 0 * (0:BLS) + 0 * (0:BLS)
  else sum_var

/-- `all_limbs.chunks(5)`, fuelled for structural recursion (the fuel is
always the list length). -/
def chunksOf5 : ℕ → List BLS → List (List BLS)
  | 0, _ => []
  | _, [] => []
  | fuel + 1, l => l.take 5 :: chunksOf5 fuel (l.drop 5)

/-- Shallow embedding of `build_bar_to_abar_cs`.  Wires are identified
with the values the honest builder assigns to them; the returned state
carries the ordered public-input wires and the constraints the circuit
imposes.  The constraint count and the power-of-two padding of the source
are not modelled (no claim mentions them).  In step 5 the intermediate
SimFr mul/add/sub wires are determined by the allocated limb wires, so
the model records the resulting `enforce_zero` constraint directly on the
allocated limb values. -/
def build_bar_to_abar_cs
    (rescue : BLS × BLS × BLS × BLS → BLS × BLS × BLS × BLS)
    (amount asset_type blind_hash pubkey_x : BLS)
    (proof : ZKPartProof) (non_zk_state : NonZKState)
    (beta lambda : RistScalar) : TCS :=
  let cs := TCS.empty
  let zero_var := TCS.zero_var
  let zero : BLS := 0
  let one : BLS := 1
  -- 1. Input Ristretto commitment data
  let (cs, amount_var) := cs.new_variable amount
  let (cs, at_var) := cs.new_variable asset_type
  let (cs, blind_hash_var) := cs.new_variable blind_hash
  let (cs, pubkey_x_var) := cs.new_variable pubkey_x
  -- 2. Input witness x, y, a, b, r, public input comm, beta, s1, s2
  let x_sim_fr := lift_to_bls_nat non_zk_state.x
  let y_sim_fr := lift_to_bls_nat non_zk_state.y
  let a_sim_fr := lift_to_bls_nat non_zk_state.a
  let b_sim_fr := lift_to_bls_nat non_zk_state.b
  let comm := proof.non_zk_part_state_commitment
  let r := non_zk_state.r
  let beta_sim_fr := lift_to_bls_nat beta
  let lambda_sim_fr := lift_to_bls_nat lambda
  let beta_lambda := beta * lambda
  let beta_lambda_sim_fr := lift_to_bls_nat beta_lambda
  let s1_plus_lambda_s2 := proof.s_1 + proof.s_2 * lambda
  let s1_plus_lambda_s2_sim_fr := lift_to_bls_nat s1_plus_lambda_s2
  let (cs, x_sim_fr_var) := alloc_witness_bounded_total_bits cs x_sim_fr 64
  let (cs, y_sim_fr_var) := alloc_witness_bounded_total_bits cs y_sim_fr 240
  let (cs, a_sim_fr_var) := alloc_witness cs a_sim_fr
  let (cs, b_sim_fr_var) := alloc_witness cs b_sim_fr
  let (cs, comm_var) := cs.new_variable comm
  let (cs, r_var) := cs.new_variable r
  let (cs, beta_sim_fr_var) := alloc_input cs beta_sim_fr
  let (cs, lambda_sim_fr_var) := alloc_input cs lambda_sim_fr
  let (cs, beta_lambda_sim_fr_var) := alloc_input cs beta_lambda_sim_fr
  let (cs, s1_plus_lambda_s2_sim_fr_var) := alloc_input cs s1_plus_lambda_s2_sim_fr
  -- 3. Merge the limbs for x, y, a, b
  let all_limbs_var := x_sim_fr_var ++ y_sim_fr_var ++ a_sim_fr_var ++ b_sim_fr_var
  let compressed_limbs_var :=
    (chunksOf5 all_limbs_var.length all_limbs_var).map compressChunkVal
  -- 4. Open the non-ZK verifier state
  let (cs, h1_state) := TCS.rescue_hash rescue cs
    (compressed_limbs_var.getD 0 0, compressed_limbs_var.getD 1 0,
     compressed_limbs_var.getD 2 0, compressed_limbs_var.getD 3 0)
  let h1_var := h1_state.1
  let (cs, h2_state) := TCS.rescue_hash rescue cs
    (h1_var, compressed_limbs_var.getD 4 0, r_var, zero_var)
  let h2_var := h2_state.1
  let cs := cs.equal h2_var comm_var
  -- 5. Perform the check in field simulation
  let cs := cs.addCon CTag.enforceZero
    (sigmaCheckHolds (limbsZ x_sim_fr_var) (limbsZ y_sim_fr_var)
      (limbsZ a_sim_fr_var) (limbsZ b_sim_fr_var)
      (limbsZ beta_sim_fr_var) (limbsZ lambda_sim_fr_var)
      (limbsZ beta_lambda_sim_fr_var) (limbsZ s1_plus_lambda_s2_sim_fr_var))
  -- 6. Check x = amount_var and y = at_var
  let (cs, x_low) := cs.linear_combine (x_sim_fr_var.getD 0 0) (x_sim_fr_var.getD 1 0)
    (x_sim_fr_var.getD 2 0) (x_sim_fr_var.getD 3 0) one (stepPow 1) (stepPow 2) (stepPow 3)
  let (cs, x_in_bls12_381) := cs.linear_combine x_low (x_sim_fr_var.getD 4 0)
    (x_sim_fr_var.getD 5 0) zero_var one (stepPow 4) (stepPow 5) zero
  let (cs, y_low) := cs.linear_combine (y_sim_fr_var.getD 0 0) (y_sim_fr_var.getD 1 0)
    (y_sim_fr_var.getD 2 0) (y_sim_fr_var.getD 3 0) one (stepPow 1) (stepPow 2) (stepPow 3)
  let (cs, y_in_bls12_381) := cs.linear_combine y_low (y_sim_fr_var.getD 4 0)
    (y_sim_fr_var.getD 5 0) zero_var one (stepPow 4) (stepPow 5) zero
  let cs := cs.equal x_in_bls12_381 amount_var
  let cs := cs.equal y_in_bls12_381 at_var
  -- 7. Rescue commitment
  let (cs, rc1_state) := TCS.rescue_hash rescue cs
    (blind_hash_var, amount_var, at_var, zero_var)
  let (cs, rc2_state) := TCS.rescue_hash rescue cs
    (rc1_state.1, pubkey_x_var, zero_var, zero_var)
  let rescue_comm_var := rc2_state.1
  -- prepare public inputs
  let cs := cs.prepare_pi_variable rescue_comm_var
  let cs := cs.prepare_pi_variable comm_var
  let cs := beta_sim_fr_var.foldl TCS.prepare_pi_variable cs
  let cs := lambda_sim_fr_var.foldl TCS.prepare_pi_variable cs
  let cs := beta_lambda_sim_fr_var.foldl TCS.prepare_pi_variable cs
  let cs := s1_plus_lambda_s2_sim_fr_var.foldl TCS.prepare_pi_variable cs
  cs

/-- The online-input vector assembled by `verify_eq_committed_vals`
(confidential_to_anonymous.rs lines 317-334). -/
def verify_eq_committed_vals_online_inputs (hash_comm : BLS)
    (proof_zk_part : ZKPartProof) (beta lambda : RistScalar) : List BLS :=
  let beta_sim_fr := simFrLimbs (lift_to_bls_nat beta)
  let lambda_sim_fr := simFrLimbs (lift_to_bls_nat lambda)
  let beta_lambda := beta * lambda
  let beta_lambda_sim_fr := simFrLimbs (lift_to_bls_nat beta_lambda)
  let s1_plus_lambda_s2 := proof_zk_part.s_1 + proof_zk_part.s_2 * lambda
  let s1_plus_lambda_s2_sim_fr := simFrLimbs (lift_to_bls_nat s1_plus_lambda_s2)
  [hash_comm, proof_zk_part.non_zk_part_state_commitment]
    ++ beta_sim_fr ++ lambda_sim_fr ++ beta_lambda_sim_fr ++ s1_plus_lambda_s2_sim_fr

/-- The two-stage Rescue chain computing the ABAR commitment from native
wires (step 7 of the circuit, and step 2 of `bar_to_abar`). -/
def rescue_comm_chain (rescue : BLS × BLS × BLS × BLS → BLS × BLS × BLS × BLS)
    (blind_hash amount asset_type pubkey_x : BLS) : BLS :=
  (rescue ((rescue (blind_hash, amount, asset_type, 0)).1, pubkey_x, 0, 0)).1

/-- The wire carrying the recomputed non-ZK-state commitment in step 4:
the 24 limb wires of `x‖y‖a‖b` compressed into five wires and fed through
the two-stage Rescue with the blind `r`. -/
def non_zk_comm_chain (rescue : BLS × BLS × BLS × BLS → BLS × BLS × BLS × BLS)
    (x y a b : ℕ) (r : BLS) : BLS :=
  let all_limbs := simFrLimbs x ++ simFrLimbs y ++ simFrLimbs a ++ simFrLimbs b
  let compressed := (chunksOf5 all_limbs.length all_limbs).map compressChunkVal
  (rescue ((rescue (compressed.getD 0 0, compressed.getD 1 0,
    compressed.getD 2 0, compressed.getD 3 0)).1, compressed.getD 4 0, r, 0)).1

/-- The wire repacking six simulated limbs into one native wire (step 6:
two `linear_combine` gates). -/
def packSimVal (limbs : List BLS) : BLS :=
  1 * (1 * limbs.getD 0 0 + stepPow 1 * limbs.getD 1 0 + stepPow 2 * limbs.getD 2 0
      + stepPow 3 * limbs.getD 3 0)
    + stepPow 4 * limbs.getD 4 0 + stepPow 5 * limbs.getD 5 0 + 0 * (0:BLS)

/-! ## Driver: `bar_to_abar` / `verify_bar_to_abar`
(confidential_to_anonymous.rs lines 110-255)

The source group is an arbitrary additive commutative group; a point is
multiplied by a scalar through the scalar's canonical representative.
Compressed points are opaque values decoded by an abstract `decompress`
(the curve decoding is external to the provided sources).  The external
collaborators — the Rescue permutation, the delegated Chaum-Pedersen
prover/verifier and the PLONK prover/verifier — are parameters whose
contracts (spec §§4.4, 6) appear as hypotheses of the
round-trip theorem. -/

/-- Error taxonomy (spec §7). -/
inductive ZeiError where
  | DecompressElementError
  | ZKProofVerificationError
  | AXfrProofError
  | SerializationError
  | DeserializationError
  | SignatureError
deriving DecidableEq

/-- `TWO_POW_32` (confidential_to_anonymous.rs line 32). -/
def TWO_POW_32 : ℕ := 2 ^ 32

/-- `u64_to_u32_pair`. -/
def u64_to_u32_pair (x : ℕ) : ℕ × ℕ := (x % 2 ^ 32, x / 2 ^ 32)

section Driver

variable {G : Type} [AddCommGroup G] {P : Type} {Pf : Type}

/-- `point.mul(&scalar)`: scalar multiplication by the canonical
representative. -/
def pointMul (s : RistScalar) (p : G) : G := s.val • p

/-- `pc_gens.commit(m, r) = m·G + r·H` for the two Pedersen generators. -/
def commit (Gg Hg : G) (m r : RistScalar) : G := pointMul m Gg + pointMul r Hg

/-- `XfrAmount`: confidential amounts store two compressed commitments
(low/high 32-bit halves). -/
inductive XfrAmount (P : Type) where
  | confidential : P → P → XfrAmount P
  | nonConfidential : ℕ → XfrAmount P

/-- `XfrAssetType`: the non-confidential case carries the asset type,
represented by its scalar (`as_scalar`). -/
inductive XfrAssetType (P : Type) where
  | confidential : P → XfrAssetType P
  | nonConfidential : RistScalar → XfrAssetType P

/-- `BlindAssetRecord` (only the fields `verify_bar_to_abar` reads). -/
structure BlindAssetRecord (P : Type) where
  amount : XfrAmount P
  asset_type : XfrAssetType P

/-- `AnonBlindAssetRecord` (only the commitment field is read). -/
structure AnonBlindAssetRecordM where
  commitment : BLS

/-- `ConvertBarAbarProof`. -/
structure ConvertBarAbarProof (Pf : Type) where
  commitment_eq_proof : ZKPartProof
  pc_rescue_commitments_eq_proof : Pf

/-- `decompress` with the error the verifier attaches
(`ok_or(ZeiError::DecompressElementError)`). -/
def decompressOrErr (decompress : P → Option G) (c : P) : Except ZeiError G :=
  match decompress c with
  | some g => Except.ok g
  | none => Except.error ZeiError.DecompressElementError

/-- Step 1 of `verify_bar_to_abar` (lines 199-233): reconstruct the
amount and asset-type commitments from the BAR.  The `?` early returns of
the source are written as explicit matches. -/
def verify_bar_to_abar_step1 (decompress : P → Option G) (Gg Hg : G)
    (bar : BlindAssetRecord P) : Except ZeiError (G × G) :=
  match (match bar.amount with
    | XfrAmount.confidential low high =>
        (match decompress low with
         | none => Except.error ZeiError.DecompressElementError
         | some l =>
           match decompress high with
           | none => Except.error ZeiError.DecompressElementError
           | some h => Except.ok (l, h))
    | XfrAmount.nonConfidential amount =>
        Except.ok
          (commit Gg Hg (((u64_to_u32_pair amount).1 : ℕ) : RistScalar) 0,
           commit Gg Hg (((u64_to_u32_pair amount).2 : ℕ) : RistScalar) 0)) with
  | Except.error e => Except.error e
  | Except.ok lowhigh =>
    let com_amount := lowhigh.1 + pointMul ((TWO_POW_32 : ℕ) : RistScalar) lowhigh.2
    match bar.asset_type with
    | XfrAssetType.confidential a =>
        (match decompress a with
         | none => Except.error ZeiError.DecompressElementError
         | some q => Except.ok (com_amount, q))
    | XfrAssetType.nonConfidential s =>
        Except.ok (com_amount, commit Gg Hg s 0)

/-- `OpenAssetRecord` (the fields `bar_to_abar` reads; `asset_type`
stands for `obar.asset_type.as_scalar()`). -/
structure OpenAssetRecordM (P : Type) where
  amount : ℕ
  asset_type : RistScalar
  amount_blinds : RistScalar × RistScalar
  type_blind : RistScalar
  blind_asset_record : BlindAssetRecord P

/-- Shallow embedding of `bar_to_abar` (lines 110-191).  The randomness
consumed by the call is made explicit: `oabar_blind` is the Rescue blind
the external ABAR builder samples, and the abstract sigma prover carries
its own randomizers.  The external ABAR builder's output commitment obeys
the spec §3 invariant, i.e. it is the Rescue chain `z` that the function
itself recomputes. -/
def bar_to_abar (rescue : BLS × BLS × BLS × BLS → BLS × BLS × BLS × BLS)
    (sigProve : RistScalar → RistScalar → RistScalar → RistScalar → G → G → BLS
      → ZKPartProof × NonZKState × RistScalar × RistScalar)
    (plonkProve : TCS → Except ZeiError Pf)
    (Gg Hg : G) (obar : OpenAssetRecordM P) (abar_pubkey_x : BLS)
    (oabar_blind : BLS) :
    Except ZeiError (AnonBlindAssetRecordM × ConvertBarAbarProof Pf) :=
  let x : RistScalar := ((obar.amount : ℕ) : RistScalar)
  let y : RistScalar := obar.asset_type
  let gamma := obar.amount_blinds.1
    + obar.amount_blinds.2 * ((TWO_POW_32 : ℕ) : RistScalar)
  let delta := obar.type_blind
  let point_p := commit Gg Hg x gamma
  let point_q := commit Gg Hg y delta
  let x_in_bls12_381 : BLS := ((lift_to_bls_nat x : ℕ) : BLS)
  let y_in_bls12_381 : BLS := ((lift_to_bls_nat y : ℕ) : BLS)
  let z := rescue_comm_chain rescue oabar_blind x_in_bls12_381 y_in_bls12_381
    abar_pubkey_x
  let r := sigProve x gamma y delta point_p point_q z
  let commitment_eq_proof := r.1
  let non_zk_state := r.2.1
  let beta := r.2.2.1
  let lambda := r.2.2.2
  -- prove_eq_committed_vals: build the circuit and run the PLONK prover
  let cs := build_bar_to_abar_cs rescue x_in_bls12_381 y_in_bls12_381
    oabar_blind abar_pubkey_x commitment_eq_proof non_zk_state beta lambda
  match plonkProve cs with
  | Except.error e => Except.error e
  | Except.ok pc_rescue_commitments_eq_proof =>
      Except.ok ({ commitment := z },
        ⟨commitment_eq_proof, pc_rescue_commitments_eq_proof⟩)

/-- Shallow embedding of `verify_eq_committed_vals` (lines 309-345):
assemble the online inputs and run the PLONK verifier. -/
def verify_eq_committed_vals
    (plonkVerify : List BLS → Pf → Except ZeiError Unit)
    (hash_comm : BLS) (proof_zk_part : ZKPartProof) (proof : Pf)
    (beta lambda : RistScalar) : Except ZeiError Unit :=
  plonkVerify
    (verify_eq_committed_vals_online_inputs hash_comm proof_zk_part beta lambda)
    proof

/-- Shallow embedding of `verify_bar_to_abar` (lines 193-255). -/
def verify_bar_to_abar (decompress : P → Option G)
    (sigVerify : G → G → BLS → ZKPartProof
      → Except ZeiError (RistScalar × RistScalar))
    (plonkVerify : List BLS → Pf → Except ZeiError Unit)
    (Gg Hg : G) (bar : BlindAssetRecord P) (abar : AnonBlindAssetRecordM)
    (proof : ConvertBarAbarProof Pf) : Except ZeiError Unit :=
  match verify_bar_to_abar_step1 decompress Gg Hg bar with
  | Except.error e => Except.error e
  | Except.ok coms =>
    match sigVerify coms.1 coms.2 abar.commitment proof.commitment_eq_proof with
    | Except.error e => Except.error e
    | Except.ok bl =>
        verify_eq_committed_vals plonkVerify abar.commitment
          proof.commitment_eq_proof proof.pc_rescue_commitments_eq_proof bl.1 bl.2

/-- Consistency of an open record with its blind asset record: each BAR
commitment opens to the corresponding half of the amount (resp. the asset
type) under the corresponding blind; non-confidential fields carry the
cleartext value and zero blinds. -/
def bar_matches (decompress : P → Option G) (Gg Hg : G)
    (obar : OpenAssetRecordM P) : Prop :=
  (match obar.blind_asset_record.amount with
   | XfrAmount.confidential low high =>
       decompress low = some (commit Gg Hg
         (((u64_to_u32_pair obar.amount).1 : ℕ) : RistScalar) obar.amount_blinds.1)
       ∧ decompress high = some (commit Gg Hg
         (((u64_to_u32_pair obar.amount).2 : ℕ) : RistScalar) obar.amount_blinds.2)
   | XfrAmount.nonConfidential a =>
       a = obar.amount ∧ obar.amount_blinds = (0, 0))
  ∧ (match obar.blind_asset_record.asset_type with
     | XfrAssetType.confidential c =>
         decompress c = some (commit Gg Hg obar.asset_type obar.type_blind)
     | XfrAssetType.nonConfidential s =>
         s = obar.asset_type ∧ obar.type_blind = 0)

end Driver

/-! ## Note verification (confidential_to_anonymous.rs lines 100-108)

The note body, signature scheme and bincode serializer are external to
the core; they are abstract parameters.  `bincode::serialize` may fail,
in which case the error is mapped to `SerializationError`. -/

section Note

variable {Bd Sig PK SK : Type}

/-- `BarToAbarNote`: a body plus the owner's signature. -/
structure BarToAbarNoteM (Bd Sig : Type) where
  body : Bd
  signature : Sig

/-- Shallow embedding of `verify_bar_to_abar_note`: verify the conversion
body, serialize the body, then check the signature over the serialized
bytes under the given key. -/
def verify_bar_to_abar_note (verify_body : Bd → Except ZeiError Unit)
    (serialize : Bd → Option (List ℕ))
    (sig_verify : PK → List ℕ → Sig → Except ZeiError Unit)
    (note : BarToAbarNoteM Bd Sig) (bar_pub_key : PK) : Except ZeiError Unit :=
  match verify_body note.body with
  | Except.error e => Except.error e
  | Except.ok _ =>
    match serialize note.body with
    | none => Except.error ZeiError.SerializationError
    | some msg => sig_verify bar_pub_key msg note.signature

end Note

/-! ## Lemmas and claim theorems -/

lemma q_S_pos : 0 < q_S := by norm_num [q_S]

lemma q_S_lt_two_pow_253 : q_S < 2 ^ 253 := by norm_num [q_S]

lemma q_S_lt_p_BLS : q_S < p_BLS := by norm_num [q_S, p_BLS]

@[simp] lemma toBytesLE_length (len n : ℕ) : (toBytesLE len n).length = len := by
  induction len generalizing n with
  | zero => rfl
  | succ k ih => simp [toBytesLE, ih]

lemma fromBytesLE_toBytesLE (len n : ℕ) (h : n < 256 ^ len) :
    fromBytesLE (toBytesLE len n) = n := by
  induction len generalizing n with
  | zero => simp at h; simp [h, toBytesLE, fromBytesLE]
  | succ k ih =>
      have hdiv : n / 256 < 256 ^ k := by
        rw [Nat.div_lt_iff_lt_mul (by norm_num)]
        calc n < 256 ^ (k + 1) := h
        _ = 256 ^ k * 256 := by ring
      simp only [toBytesLE, fromBytesLE, ih _ hdiv]
      omega

/-- `BigUint::from_bytes_le(&s.to_bytes())` for a Ristretto scalar `s`
recovers the canonical representative. -/
lemma fromBytes_toBytes_rist (s : RistScalar) :
    fromBytesLE (toBytesLE 32 s.val) = s.val := by
  apply fromBytesLE_toBytesLE
  have h := ZMod.val_lt s
  have : q_S < 256 ^ 32 := by norm_num [q_S]
  omega

section MultiExp

variable {G : Type} [AddCommGroup G]

@[simp] lemma radixAux_length (w : ℕ) : ∀ (len n : ℕ), (radixAux w len n).length = len := by
  intro len
  induction len with
  | zero => intro n; rfl
  | succ k ih =>
      intro n
      by_cases h : n % 2 ^ w < 2 ^ (w - 1) <;> simp [radixAux, h, ih]

lemma radixAux_digit_range (w : ℕ) (hw : 1 ≤ w) :
    ∀ (len n : ℕ), ∀ d ∈ radixAux w len n,
      -(2 ^ (w - 1) : ℤ) ≤ d ∧ d < 2 ^ (w - 1) := by
  intro len
  induction len with
  | zero => intro n d hd; simp [radixAux] at hd
  | succ k ih =>
      intro n d hd
      have h2w : (2 : ℕ) ^ w = 2 * 2 ^ (w - 1) := by
        conv_lhs => rw [show w = (w - 1) + 1 by omega]
        ring
      have hmod : n % 2 ^ w < 2 ^ w := Nat.mod_lt _ (by positivity)
      by_cases h : n % 2 ^ w < 2 ^ (w - 1)
      · simp only [radixAux, h, if_pos] at hd
        rcases List.mem_cons.mp hd with rfl | hmem
        · refine ⟨le_trans (neg_nonpos.mpr (by positivity)) (Int.natCast_nonneg _), ?_⟩
          exact_mod_cast h
        · exact ih _ _ hmem
      · simp only [radixAux, h, if_neg, not_false_iff] at hd
        rcases List.mem_cons.mp hd with rfl | hmem
        · have h1 : (2 : ℤ) ^ w = 2 * 2 ^ (w - 1) := by exact_mod_cast h2w
          have h3 : ((n % 2 ^ w : ℕ) : ℤ) < 2 ^ w := by exact_mod_cast hmod
          have h4 : (2 ^ (w - 1) : ℤ) ≤ ((n % 2 ^ w : ℕ) : ℤ) := by
            exact_mod_cast Nat.le_of_not_lt h
          constructor <;> omega
        · exact ih _ _ hmem

/-- The signed radix decomposition reconstructs the scalar, for scalars
comfortably below the digit capacity. -/
lemma radixAux_val (w : ℕ) (hw : 3 ≤ w) :
    ∀ (len n : ℕ), 1 ≤ len → n ≤ 2 ^ (w * len - 2) + 1 →
      limbsValW w (radixAux w len n) = n := by
  intro len
  induction len with
  | zero => intro n h; omega
  | succ k ih =>
      intro n _ hn
      have hpow : (0:ℕ) < 2 ^ w := by positivity
      rcases Nat.eq_zero_or_pos k with hk | hk
      · subst hk
        have hlt : n < 2 ^ (w - 1) := by
          have h1 : 2 ^ (w - 2) + 1 < 2 ^ (w - 1) := by
            have h2 : w - 1 = (w - 2) + 1 := by omega
            rw [h2, pow_succ]
            have h3 : (2:ℕ) ≤ 2 ^ (w - 2) := by
              calc (2:ℕ) = 2 ^ 1 := rfl
              _ ≤ 2 ^ (w - 2) := Nat.pow_le_pow_right (by norm_num) (by omega)
            omega
          have : w * 1 - 2 = w - 2 := by omega
          rw [this] at hn
          omega
        have hlt' : n < 2 ^ w := by
          calc n < 2 ^ (w - 1) := hlt
          _ ≤ 2 ^ w := Nat.pow_le_pow_right (by norm_num) (by omega)
        have hmod : n % 2 ^ w = n := Nat.mod_eq_of_lt hlt'
        simp [radixAux, hmod, hlt, limbsValW]
      · -- k ≥ 1
        have hsplit : w * (k + 1) - 2 = (w * k - 2) + w := by
          have h1 : w * (k + 1) = w * k + w := by ring
          have h2 : 2 ≤ w * k := le_trans (by omega) (Nat.le_mul_of_pos_right w hk)
          omega
        have hdivb : n / 2 ^ w ≤ 2 ^ (w * k - 2) := by
          have h1 : n ≤ 2 ^ (w * k - 2) * 2 ^ w + 1 := by
            rw [hsplit, pow_add] at hn; exact hn
          have h2 : n / 2 ^ w ≤ (2 ^ (w * k - 2) * 2 ^ w + 1) / 2 ^ w :=
            Nat.div_le_div_right h1
          have h3 : (2 ^ (w * k - 2) * 2 ^ w + 1) / 2 ^ w = 2 ^ (w * k - 2) := by
            rw [Nat.add_comm, Nat.mul_comm, Nat.add_mul_div_left _ _ hpow]
            have : 1 / 2 ^ w = 0 := Nat.div_eq_of_lt (by
              calc (1:ℕ) < 2 ^ 3 := by norm_num
              _ ≤ 2 ^ w := Nat.pow_le_pow_right (by norm_num) hw)
            omega
          omega
        have hcast : ((n % 2 ^ w : ℕ) : ℤ) + 2 ^ w * ((n / 2 ^ w : ℕ) : ℤ) = (n : ℤ) := by
          exact_mod_cast Nat.mod_add_div n (2 ^ w)
        by_cases h : n % 2 ^ w < 2 ^ (w - 1)
        · have ihv := ih (n / 2 ^ w) hk (by omega)
          simp only [radixAux, h, if_pos, limbsValW, ihv]
          push_cast at hcast ⊢
          linear_combination hcast
        · have ihv := ih (n / 2 ^ w + 1) hk (by omega)
          simp only [radixAux, h, if_neg, not_false_iff, limbsValW, ihv]
          push_cast at hcast ⊢
          linear_combination hcast

@[simp] lemma wSumFrom_nil (k : ℕ) : wSumFrom (G := G) k [] = 0 := rfl

@[simp] lemma wSumFrom_cons (k : ℕ) (b : G) (bs : List G) :
    wSumFrom k (b :: bs) = (k + 1) • b + wSumFrom (k + 1) bs := rfl

lemma wSumFrom_replicate_zero (m : ℕ) : ∀ k, wSumFrom (G := G) k (List.replicate m 0) = 0 := by
  induction m with
  | zero => intro k; rfl
  | succ j ih => intro k; simp [List.replicate, ih]

lemma wSumFrom_append_singleton (b : G) :
    ∀ (l : List G) (k : ℕ),
      wSumFrom k (l ++ [b]) = wSumFrom k l + (k + l.length + 1) • b := by
  intro l
  induction l with
  | nil => intro k; simp
  | cons x xs ih =>
      intro k
      have harith : k + 1 + xs.length + 1 = k + (x :: xs).length + 1 := by
        simp; omega
      simp only [List.cons_append, wSumFrom_cons, ih, ← add_assoc, harith]

lemma wSumFrom_set (e : G) :
    ∀ (l : List G) (k i : ℕ), i < l.length →
      wSumFrom k (l.set i (l.getD i 0 + e)) = wSumFrom k l + (k + i + 1) • e := by
  intro l
  induction l with
  | nil => intro k i hi; simp at hi
  | cons b bs ih =>
      intro k i hi
      cases i with
      | zero =>
          simp only [List.set, List.getD_cons_zero, wSumFrom_cons, smul_add]
          abel
      | succ j =>
          have hj : j < bs.length := by simpa using hi
          simp only [List.set, List.getD_cons_succ, wSumFrom_cons, ih (k + 1) j hj]
          have harith : k + 1 + j + 1 = k + (j + 1) + 1 := by omega
          rw [harith]
          abel

@[simp] lemma bucketAccum_length (bs : List G) (d : ℤ) (e : G) :
    (bucketAccum bs d e).length = bs.length := by
  unfold bucketAccum
  split <;> try split
  all_goals simp

/-- One bucket update adds exactly `d • e` to the weighted bucket sum. -/
lemma wSum_bucketAccum (bs : List G) (d : ℤ) (e : G)
    (h1 : -(bs.length : ℤ) ≤ d) (h2 : d ≤ (bs.length : ℤ)) :
    wSum (bucketAccum bs d e) = wSum bs + d • e := by
  unfold bucketAccum wSum
  rcases lt_trichotomy 0 d with hd | hd | hd
  · rw [if_pos hd]
    have hlen : 1 ≤ d.toNat ∧ d.toNat ≤ bs.length := by omega
    have hi : d.toNat - 1 < bs.length := by omega
    rw [wSumFrom_set e bs 0 _ hi]
    have hcoe : (0 + (d.toNat - 1) + 1) • e = d • e := by
      have hn : 0 + (d.toNat - 1) + 1 = d.toNat := by omega
      rw [hn, ← natCast_zsmul, Int.toNat_of_nonneg (le_of_lt hd)]
    rw [hcoe]
  · rw [if_neg (by omega), if_neg (by omega)]
    simp [← hd]
  · rw [if_neg (by omega), if_pos hd]
    have hlen : 1 ≤ (-d).toNat ∧ (-d).toNat ≤ bs.length := by omega
    have hi : (-d).toNat - 1 < bs.length := by omega
    have hsub : bs.getD ((-d).toNat - 1) 0 - e = bs.getD ((-d).toNat - 1) 0 + -e := by
      abel
    rw [hsub, wSumFrom_set (-e) bs 0 _ hi]
    have hcoe : (0 + ((-d).toNat - 1) + 1) • (-e) = d • e := by
      have hn : 0 + ((-d).toNat - 1) + 1 = (-d).toNat := by omega
      rw [hn, smul_neg, ← natCast_zsmul, Int.toNat_of_nonneg (by omega)]
      rw [← neg_zsmul, neg_neg]
    rw [hcoe]

/-- Folding the bucket updates over all pairs accumulates the column sum
into the weighted bucket sum (and preserves the bucket count). -/
lemma bucketFold_wSum (m index : ℕ) :
    ∀ (pairs : List (List ℤ × G)) (bs : List G),
      bs.length = m →
      (∀ p ∈ pairs, ∀ d ∈ p.1, -(m : ℤ) ≤ d ∧ d ≤ (m : ℤ)) →
      (pairs.foldl
        (fun bs de =>
          if index ≥ de.1.length then bs
          else bucketAccum bs (de.1.getD index 0) de.2) bs).length = m ∧
      wSum (pairs.foldl
        (fun bs de =>
          if index ≥ de.1.length then bs
          else bucketAccum bs (de.1.getD index 0) de.2) bs)
        = wSum bs + (pairs.map (colTerm index)).sum := by
  intro pairs
  induction pairs with
  | nil => intro bs hbs _; simp [hbs]
  | cons p ps ih =>
      intro bs hbs hrange
      have hp := hrange p (List.mem_cons_self p ps)
      have hps : ∀ q ∈ ps, ∀ d ∈ q.1, -(m : ℤ) ≤ d ∧ d ≤ (m : ℤ) := fun q hq =>
        hrange q (List.mem_cons_of_mem p hq)
      simp only [List.foldl_cons, List.map_cons, List.sum_cons]
      by_cases hidx : index ≥ p.1.length
      · rw [if_pos hidx]
        have hterm : colTerm index p = 0 := by
          unfold colTerm
          rw [if_neg (by omega)]
        obtain ⟨hl, hs⟩ := ih bs hbs hps
        refine ⟨hl, ?_⟩
        rw [hs, hterm]
        abel
      · rw [if_neg hidx]
        have hidx' : index < p.1.length := by omega
        have hdmem : p.1.getD index 0 ∈ p.1 := by
          rw [List.getD_eq_getElem _ _ hidx']
          exact List.getElem_mem _
        have hd := hp (p.1.getD index 0) hdmem
        have hblen : (bucketAccum bs (p.1.getD index 0) p.2).length = m := by
          simp [hbs]
        obtain ⟨hl, hs⟩ := ih _ hblen hps
        refine ⟨hl, ?_⟩
        rw [hs, wSum_bucketAccum bs _ p.2 (by rw [hbs]; exact hd.1) (by rw [hbs]; exact hd.2)]
        have hterm : colTerm index p = p.1.getD index 0 • p.2 := by
          unfold colTerm
          rw [if_pos hidx']
        rw [hterm]
        abel

lemma take_succ_getD (l : List G) (k : ℕ) (hk : k < l.length) :
    l.take (k + 1) = l.take k ++ [l.getD k 0] := by
  induction l generalizing k with
  | nil => simp at hk
  | cons x xs ih =>
      cases k with
      | zero => simp [List.take]
      | succ j =>
          have hj : j < xs.length := by simpa using hk
          simp [List.take, ih j hj]

lemma range_rev_foldl (bs : List G) :
    ∀ (k : ℕ) (it s : G),
      (List.range k).reverse.foldl
        (fun st i => (st.1 + bs.getD i 0, st.2 + st.1 + bs.getD i 0)) (it, s)
        = (it + (bs.take k).sum, s + k • it + wSumFrom 0 (bs.take k)) := by
  intro k
  induction k with
  | zero => intro it s; simp
  | succ k ih =>
      intro it s
      rw [List.range_succ, List.reverse_append]
      simp only [List.reverse_cons, List.reverse_nil, List.nil_append, List.singleton_append,
        List.foldl_cons]
      rw [ih]
      by_cases hk : k < bs.length
      · rw [take_succ_getD bs k hk]
        have hlen : (bs.take k).length = k := by simp [Nat.le_of_lt hk]
        simp only [Prod.mk.injEq]
        constructor
        · rw [List.sum_append, List.sum_cons, List.sum_nil]
          abel
        · rw [wSumFrom_append_singleton, hlen]
          simp only [Nat.zero_add]
          rw [smul_add, succ_nsmul, succ_nsmul]
          abel
      · have hge : bs.length ≤ k := Nat.le_of_not_lt hk
        have hd0 : bs.getD k 0 = 0 := List.getD_eq_default _ _ hge
        have ht1 : bs.take (k + 1) = bs.take k := by
          rw [List.take_of_length_le hge, List.take_of_length_le (by omega)]
        rw [hd0, ht1]
        simp only [Prod.mk.injEq, add_zero]
        constructor
        · trivial
        · rw [succ_nsmul]
          abel

lemma getLast?_getD : ∀ (l : List G), (l.getLast?).getD 0 = l.getD (l.length - 1) 0 := by
  intro l
  induction l with
  | nil => rfl
  | cons x xs ih =>
      cases xs with
      | nil => rfl
      | cons y ys =>
          rw [List.getLast?_cons_cons, ih]
          have hlen : (x :: y :: ys).length - 1 = (y :: ys).length - 1 + 1 := by simp
          rw [hlen, List.getD_cons_succ]

/-- The two-running-sums trick computes the weighted bucket sum. -/
lemma twoSumsFold_eq_wSum (bs : List G) (hne : bs ≠ []) :
    twoSumsFold bs = wSum bs := by
  have hlen : 1 ≤ bs.length := by
    cases bs with
    | nil => exact absurd rfl hne
    | cons x xs => simp
  unfold twoSumsFold
  rw [getLast?_getD, range_rev_foldl]
  have hk : bs.length - 1 < bs.length := by omega
  have hbs : bs = bs.take (bs.length - 1) ++ [bs.getD (bs.length - 1) 0] := by
    conv_lhs => rw [← List.take_length (l := bs)]
    rw [show bs.length = (bs.length - 1) + 1 by omega]
    exact take_succ_getD bs _ hk
  have htlen : (bs.take (bs.length - 1)).length = bs.length - 1 := by
    simp
  unfold wSum
  conv_rhs => rw [hbs]
  rw [wSumFrom_append_singleton, htlen]
  simp only [Nat.zero_add]
  rw [show bs.length - 1 + 1 = bs.length by omega,
    show bs.length = (bs.length - 1) + 1 by omega, succ_nsmul]
  abel

/-- A Pippenger column computes the sum of the digit-weighted inputs at
its digit position. -/
lemma pipCol_eq (digits_vec : List (List ℤ)) (elems : List G) (m index : ℕ)
    (hm : 1 ≤ m)
    (hrange : ∀ p ∈ digits_vec.zip elems, ∀ d ∈ p.1, -(m : ℤ) ≤ d ∧ d ≤ (m : ℤ)) :
    pipCol digits_vec elems m index
      = ((digits_vec.zip elems).map (colTerm index)).sum := by
  unfold pipCol
  obtain ⟨hl, hs⟩ := bucketFold_wSum (G := G) m index (digits_vec.zip elems)
    (List.replicate m 0) (by simp) hrange
  have hne : (digits_vec.zip elems).foldl
      (fun bs de =>
        if index ≥ de.1.length then bs
        else bucketAccum bs (de.1.getD index 0) de.2) (List.replicate m 0) ≠ [] := by
    intro hempty
    rw [hempty] at hl
    simp at hl
    omega
  rw [twoSumsFold_eq_wSum _ hne, hs]
  unfold wSum
  rw [wSumFrom_replicate_zero]
  abel

/-- Horner accumulation over the columns, highest digit position first. -/
lemma horner_fold (f : ℕ → G) (c : ℕ) :
    ∀ (m : ℕ) (init : G),
      (((List.range m).reverse.map f).foldl (fun total p => c • total + p) init)
        = c ^ m • init + ∑ i ∈ Finset.range m, c ^ i • f i := by
  intro m
  induction m with
  | zero => intro init; simp
  | succ m ih =>
      intro init
      rw [List.range_succ, List.reverse_append]
      simp only [List.reverse_cons, List.reverse_nil, List.nil_append, List.singleton_append,
        List.map_cons, List.foldl_cons]
      rw [ih (c • init + f m), Finset.sum_range_succ]
      rw [smul_add, smul_smul, ← pow_succ]
      abel

/-- Value of the digit list as a weighted `Finset` sum. -/
lemma limbsValW_eq_sum (w : ℕ) :
    ∀ l : List ℤ, limbsValW w l = ∑ i ∈ Finset.range l.length, (2 ^ w : ℤ) ^ i * l.getD i 0 := by
  intro l
  induction l with
  | nil => simp [limbsValW]
  | cons d ds ih =>
      rw [limbsValW, ih, List.length_cons, Finset.sum_range_succ']
      simp only [List.getD_cons_succ, List.getD_cons_zero, pow_zero, one_mul]
      rw [Finset.mul_sum, add_comm]
      congr 1
      apply Finset.sum_congr rfl
      intro i _
      ring

/-- Exchanging the column/input double sum: summing the digit-weighted
columns with Horner weights gives the full multi-exponentiation. -/
lemma colsum_exchange (w : ℕ) (len : ℕ) :
    ∀ (pairs : List (List ℤ × G)),
      (∀ p ∈ pairs, p.1.length = len) →
      ∑ i ∈ Finset.range len, (2 ^ w) ^ i • ((pairs.map (colTerm i)).sum)
        = (pairs.map (fun p => limbsValW w p.1 • p.2)).sum := by
  intro pairs
  induction pairs with
  | nil => simp
  | cons p ps ih =>
      intro hlen
      have hp : p.1.length = len := hlen p (List.mem_cons_self p ps)
      have hps : ∀ q ∈ ps, q.1.length = len := fun q hq => hlen q (List.mem_cons_of_mem p hq)
      simp only [List.map_cons, List.sum_cons, smul_add, Finset.sum_add_distrib]
      rw [ih hps]
      congr 1
      have hterm : ∀ i ∈ Finset.range len,
          (2 ^ w : ℕ) ^ i • colTerm i p = ((2 ^ w : ℤ) ^ i * p.1.getD i 0) • p.2 := by
        intro i hi
        have hilt : i < p.1.length := by
          rw [hp]
          exact Finset.mem_range.mp hi
        unfold colTerm
        rw [if_pos hilt, ← natCast_zsmul, smul_smul]
        norm_num
      rw [Finset.sum_congr rfl hterm, ← Finset.sum_smul, ← hp, ← limbsValW_eq_sum]

lemma foldl_max_const {α : Type} (f : α → ℕ) (c : ℕ) :
    ∀ (l : List α) (acc : ℕ), l ≠ [] → (∀ x ∈ l, f x = c) →
      l.foldl (fun a x => max a (f x)) acc = max acc c := by
  intro l
  induction l with
  | nil => intro acc h; exact absurd rfl h
  | cons x xs ih =>
      intro acc _ hall
      have hx : f x = c := hall x (List.mem_cons_self x xs)
      cases xs with
      | nil => simp [List.foldl_cons, hx]
      | cons y ys =>
          rw [List.foldl_cons, hx,
            ih (max acc c) (by simp) (fun z hz => hall z (List.mem_cons_of_mem x hz))]
          rw [max_assoc, max_self]

lemma foldl_add_sum {α : Type} (f : α → G) :
    ∀ (l : List α) (a : G), l.foldl (fun r x => r + f x) a = a + (l.map f).sum := by
  intro l
  induction l with
  | nil => intro a; simp
  | cons x xs ih =>
      intro a
      rw [List.foldl_cons, ih, List.map_cons, List.sum_cons]
      abel

lemma naive_multi_exp_eq_sum (scalars : List ℕ) (points : List G) :
    naive_multi_exp scalars points
      = ((scalars.zip points).map (fun sp => sp.1 • sp.2)).sum := by
  unfold naive_multi_exp
  have h := foldl_add_sum (G := G)
    (fun (sp : ℕ × G) => sp.1 • sp.2) (scalars.zip points) 0
  rw [h, zero_add]

lemma two_pow_div_two (w : ℕ) (hw : 1 ≤ w) : (2 : ℕ) ^ w / 2 = 2 ^ (w - 1) := by
  have h : (2:ℕ) ^ w = 2 ^ (w - 1) * 2 := by
    conv_lhs => rw [show w = (w - 1) + 1 by omega]
    ring
  rw [h]
  omega

/-- Main correctness of the Pippenger body: on a non-empty scalar list
whose scalars fit the digit capacity, the result is exactly the naive
multi-exponentiation. -/
lemma pippengerBody_eq_naive (w : ℕ) (hw : 3 ≤ w)
    (scalars : List ℕ) (elems : List G) (hne : scalars ≠ [])
    (hcov : ∀ s ∈ scalars, s ≤ 2 ^ (w * digitsLen w - 2) + 1) :
    pippengerBody w scalars elems = some (naive_multi_exp scalars elems) := by
  have hdl : 1 ≤ digitsLen w := Nat.succ_le_succ (Nat.zero_le _)
  have hdc : (scalars.map (scalar_to_radix_2_power_w w)).foldl
      (fun acc ds => max acc ds.length) 0 = digitsLen w := by
    rw [foldl_max_const (fun (ds : List ℤ) => ds.length) (digitsLen w) _ 0
      (by simpa using hne)]
    · omega
    · intro ds hds
      obtain ⟨s, _, rfl⟩ := List.mem_map.mp hds
      exact radixAux_length w _ _
  have hm : (2:ℕ) ^ w / 2 = 2 ^ (w - 1) := two_pow_div_two w (by omega)
  have hm1 : 1 ≤ (2:ℕ) ^ w / 2 := by
    rw [hm]; exact Nat.one_le_two_pow
  have hrange : ∀ p ∈ (scalars.map (scalar_to_radix_2_power_w w)).zip elems,
      ∀ d ∈ p.1, -((2:ℕ) ^ w / 2 : ℕ) ≤ d ∧ d ≤ ((2:ℕ) ^ w / 2 : ℕ) := by
    intro p hp d hd
    have hp1 : p.1 ∈ scalars.map (scalar_to_radix_2_power_w w) := (List.of_mem_zip hp).1
    obtain ⟨s, _, hps⟩ := List.mem_map.mp hp1
    rw [← hps] at hd
    have := radixAux_digit_range w (by omega) _ _ d hd
    have hcast : (((2:ℕ) ^ w / 2 : ℕ) : ℤ) = 2 ^ (w - 1) := by
      rw [hm]; push_cast; ring
    rw [hcast]
    omega
  have hlen : ∀ p ∈ (scalars.map (scalar_to_radix_2_power_w w)).zip elems,
      p.1.length = digitsLen w := by
    intro p hp
    have hp1 : p.1 ∈ scalars.map (scalar_to_radix_2_power_w w) := (List.of_mem_zip hp).1
    obtain ⟨s, _, hps⟩ := List.mem_map.mp hp1
    rw [← hps]
    exact radixAux_length w _ _
  simp only [pippengerBody, hdc]
  rw [show digitsLen w = (digitsLen w - 1) + 1 by omega, List.range_succ,
    List.reverse_append, List.reverse_cons, List.reverse_nil, List.nil_append,
    List.singleton_append, List.map_cons]
  simp only [Option.some.injEq]
  rw [horner_fold]
  have hcol : ∀ i, pipCol (scalars.map (scalar_to_radix_2_power_w w)) elems (2 ^ w / 2) i
      = (((scalars.map (scalar_to_radix_2_power_w w)).zip elems).map (colTerm i)).sum :=
    fun i => pipCol_eq _ _ _ i hm1 hrange
  rw [hcol]
  have hsum : ∀ i ∈ Finset.range (digitsLen w - 1),
      (2 ^ w : ℕ) ^ i • pipCol (scalars.map (scalar_to_radix_2_power_w w)) elems (2 ^ w / 2) i
        = (2 ^ w : ℕ) ^ i • (((scalars.map (scalar_to_radix_2_power_w w)).zip elems).map
            (colTerm i)).sum := by
    intro i _
    rw [hcol]
  rw [Finset.sum_congr rfl hsum]
  have hmerge : (2 ^ w : ℕ) ^ (digitsLen w - 1) •
        (((scalars.map (scalar_to_radix_2_power_w w)).zip elems).map
          (colTerm (digitsLen w - 1))).sum
      + ∑ i ∈ Finset.range (digitsLen w - 1), (2 ^ w : ℕ) ^ i •
          (((scalars.map (scalar_to_radix_2_power_w w)).zip elems).map (colTerm i)).sum
      = ∑ i ∈ Finset.range (digitsLen w), (2 ^ w : ℕ) ^ i •
          (((scalars.map (scalar_to_radix_2_power_w w)).zip elems).map (colTerm i)).sum := by
    rw [show digitsLen w = (digitsLen w - 1) + 1 by omega, Finset.sum_range_succ]
    rw [show (digitsLen w - 1) + 1 - 1 = digitsLen w - 1 by omega]
    abel
  rw [hmerge, colsum_exchange w (digitsLen w) _ hlen]
  rw [List.zip_map_left, List.map_map, naive_multi_exp_eq_sum]
  congr 1
  apply List.map_congr_left
  intro p hp
  have hmem : p.1 ∈ scalars := (List.of_mem_zip hp).1
  simp only [Function.comp_apply, Prod.map_fst, Prod.map_snd, Prod.map_apply, id_eq]
  unfold scalar_to_radix_2_power_w
  rw [radixAux_val w hw (digitsLen w) p.1 hdl (hcov p.1 hmem), natCast_zsmul]

/-- The three window-size branches of `pippenger` all cover 32-byte
scalars. -/
lemma pippenger_eq_naive (scalars : List ℕ) (elems : List G) (hne : scalars ≠ [])
    (hbound : ∀ s ∈ scalars, s < 2 ^ 256) :
    pippenger scalars elems = some (naive_multi_exp scalars elems) := by
  simp only [pippenger]
  split_ifs with h1 h2
  · exact pippengerBody_eq_naive 6 (by norm_num) scalars elems hne
      (fun s hs => by have := hbound s hs; norm_num [digitsLen]; omega)
  · exact pippengerBody_eq_naive 7 (by norm_num) scalars elems hne
      (fun s hs => by
        have := hbound s hs
        have hc : 2 ^ 256 ≤ 2 ^ (7 * digitsLen 7 - 2) + 1 := by norm_num [digitsLen]
        omega)
  · exact pippengerBody_eq_naive 8 (by norm_num) scalars elems hne
      (fun s hs => by
        have := hbound s hs
        have hc : 2 ^ 256 ≤ 2 ^ (8 * digitsLen 8 - 2) + 1 := by norm_num [digitsLen]
        omega)

/-- On the empty scalar list the column iterator is empty and the
`unwrap` panics: the model returns `none`. -/
lemma pippenger_nil (elems : List G) : pippenger [] elems = none := rfl

/-- On a non-empty scalar list no panic is possible: there is always at
least one column. -/
lemma pippengerBody_isSome (w : ℕ) (scalars : List ℕ) (elems : List G)
    (hne : scalars ≠ []) : (pippengerBody w scalars elems).isSome := by
  have hdl : 1 ≤ digitsLen w := Nat.succ_le_succ (Nat.zero_le _)
  have hdc : (scalars.map (scalar_to_radix_2_power_w w)).foldl
      (fun acc ds => max acc ds.length) 0 = digitsLen w := by
    rw [foldl_max_const (fun (ds : List ℤ) => ds.length) (digitsLen w) _ 0
      (by simpa using hne)]
    · omega
    · intro ds hds
      obtain ⟨s, _, rfl⟩ := List.mem_map.mp hds
      exact radixAux_length w _ _
  simp only [pippengerBody, hdc]
  rw [show digitsLen w = (digitsLen w - 1) + 1 by omega,
    List.range_succ, List.reverse_append, List.reverse_cons, List.reverse_nil,
    List.nil_append, List.singleton_append, List.map_cons]
  rfl

lemma pippenger_isSome (scalars : List ℕ) (elems : List G) (hne : scalars ≠ []) :
    (pippenger scalars elems).isSome := by
  simp only [pippenger]
  split_ifs <;> exact pippengerBody_isSome _ scalars elems hne

end MultiExp

lemma limbsVal_addLimbs : ∀ (a b : List ℤ), limbsVal (addLimbs a b) = limbsVal a + limbsVal b := by
  intro a
  induction a with
  | nil => intro b; simp [addLimbs, limbsVal]
  | cons x xs ih =>
      intro b
      cases b with
      | nil => simp [addLimbs, limbsVal]
      | cons y ys =>
          simp only [addLimbs, limbsVal, ih]
          ring

lemma limbsVal_negLimbs : ∀ (a : List ℤ), limbsVal (negLimbs a) = -limbsVal a := by
  intro a
  induction a with
  | nil => simp [negLimbs, limbsVal]
  | cons x xs ih =>
      simp only [negLimbs, List.map_cons, limbsVal] at *
      rw [ih]
      ring

lemma limbsVal_subLimbs (a b : List ℤ) : limbsVal (subLimbs a b) = limbsVal a - limbsVal b := by
  rw [subLimbs, limbsVal_addLimbs, limbsVal_negLimbs]
  ring

lemma limbsVal_smul (x : ℤ) : ∀ (b : List ℤ),
    limbsVal (b.map (fun y => x * y)) = x * limbsVal b := by
  intro b
  induction b with
  | nil => simp [limbsVal]
  | cons y ys ih =>
      simp only [List.map_cons, limbsVal, ih]
      ring

/-- The schoolbook limb product carries exactly the product of the
values. -/
lemma limbsVal_mulLimbs : ∀ (a b : List ℤ),
    limbsVal (mulLimbs a b) = limbsVal a * limbsVal b := by
  intro a
  induction a with
  | nil => intro b; simp [mulLimbs, limbsVal]
  | cons x xs ih =>
      intro b
      simp only [mulLimbs, limbsVal_addLimbs, limbsVal_smul, limbsVal, ih]
      ring

/-- The step-5 constraint holds iff the delegated Chaum-Pedersen identity
`β·x + (β·λ)·y + λ·b - (s₁+λ·s₂ - a) ≡ 0 (mod q_S)` holds on the limb
values. -/
lemma sigmaCheckHolds_iff (xl yl al bl betal lambdal betalambdal sl : List ℤ) :
    sigmaCheckHolds xl yl al bl betal lambdal betalambdal sl ↔
      (q_S : ℤ) ∣ (limbsVal betal * limbsVal xl + limbsVal betalambdal * limbsVal yl
        + limbsVal lambdal * limbsVal bl - (limbsVal sl - limbsVal al)) := by
  unfold sigmaCheckHolds enforce_zero_holds sigmaEqnLimbs
  rw [limbsVal_subLimbs, limbsVal_addLimbs, limbsVal_addLimbs, limbsVal_subLimbs,
    limbsVal_mulLimbs, limbsVal_mulLimbs, limbsVal_mulLimbs]
  constructor
  · exact Int.dvd_of_emod_eq_zero
  · exact Int.emod_eq_zero_of_dvd

lemma lift_to_bls_nat_eq (s : RistScalar) : lift_to_bls_nat s = s.val :=
  fromBytes_toBytes_rist s

lemma foldl_prepare_pi (l : List BLS) : ∀ cs : TCS,
    l.foldl TCS.prepare_pi_variable cs = { cs with pubs := cs.pubs ++ l } := by
  induction l with
  | nil => intro cs; simp
  | cons v vs ih =>
      intro cs
      rw [List.foldl_cons, ih]
      simp [TCS.prepare_pi_variable]

/-- The circuit declares its public-input wires in the order: Rescue
commitment, non-ZK state commitment, then the four groups of six
simulated limbs (`β`, `λ`, `β·λ`, `s₁ + λ·s₂`). -/
lemma build_bar_to_abar_cs_pubs
    (rescue : BLS × BLS × BLS × BLS → BLS × BLS × BLS × BLS)
    (amount asset_type blind_hash pubkey_x : BLS)
    (proof : ZKPartProof) (non_zk_state : NonZKState)
    (beta lambda : RistScalar) :
    (build_bar_to_abar_cs rescue amount asset_type blind_hash pubkey_x
        proof non_zk_state beta lambda).pubs
      = rescue_comm_chain rescue blind_hash amount asset_type pubkey_x
        :: proof.non_zk_part_state_commitment
        :: (simFrLimbs (lift_to_bls_nat beta)
            ++ simFrLimbs (lift_to_bls_nat lambda)
            ++ simFrLimbs (lift_to_bls_nat (beta * lambda))
            ++ simFrLimbs (lift_to_bls_nat (proof.s_1 + proof.s_2 * lambda))) := by
  simp only [build_bar_to_abar_cs, TCS.empty, TCS.new_variable, TCS.zero_var,
    alloc_witness, alloc_witness_bounded_total_bits, alloc_input, TCS.addCon,
    TCS.equal, TCS.linear_combine, TCS.rescue_hash, TCS.prepare_pi_variable,
    foldl_prepare_pi, rescue_comm_chain]
  simp

/-- The verifier assembles the online inputs in the same fixed order. -/
lemma online_inputs_layout (hash_comm : BLS) (proof_zk_part : ZKPartProof)
    (beta lambda : RistScalar) :
    verify_eq_committed_vals_online_inputs hash_comm proof_zk_part beta lambda
      = hash_comm :: proof_zk_part.non_zk_part_state_commitment
        :: (simFrLimbs (lift_to_bls_nat beta)
            ++ simFrLimbs (lift_to_bls_nat lambda)
            ++ simFrLimbs (lift_to_bls_nat (beta * lambda))
            ++ simFrLimbs (lift_to_bls_nat
                (proof_zk_part.s_1 + proof_zk_part.s_2 * lambda))) := by
  simp [verify_eq_committed_vals_online_inputs]

lemma online_inputs_length (hash_comm : BLS) (proof_zk_part : ZKPartProof)
    (beta lambda : RistScalar) :
    (verify_eq_committed_vals_online_inputs hash_comm proof_zk_part beta lambda).length
      = 26 := by
  simp [verify_eq_committed_vals_online_inputs, simFrLimbs]

/-- The exact constraint list the circuit builder records, in order. -/
lemma build_bar_to_abar_cs_cons
    (rescue : BLS × BLS × BLS × BLS → BLS × BLS × BLS × BLS)
    (amount asset_type blind_hash pubkey_x : BLS)
    (proof : ZKPartProof) (non_zk_state : NonZKState)
    (beta lambda : RistScalar) :
    (build_bar_to_abar_cs rescue amount asset_type blind_hash pubkey_x
        proof non_zk_state beta lambda).cons
      = [⟨CTag.boundedRange, boundedTotalStmt 64 (simFrLimbs (lift_to_bls_nat non_zk_state.x))⟩,
         ⟨CTag.boundedRange, boundedTotalStmt 240 (simFrLimbs (lift_to_bls_nat non_zk_state.y))⟩,
         ⟨CTag.rangeBits, rangeCheckStmt (simFrLimbs (lift_to_bls_nat non_zk_state.a))⟩,
         ⟨CTag.rangeBits, rangeCheckStmt (simFrLimbs (lift_to_bls_nat non_zk_state.b))⟩,
         ⟨CTag.rangeBits, rangeCheckStmt (simFrLimbs (lift_to_bls_nat beta))⟩,
         ⟨CTag.rangeBits, rangeCheckStmt (simFrLimbs (lift_to_bls_nat lambda))⟩,
         ⟨CTag.rangeBits, rangeCheckStmt (simFrLimbs (lift_to_bls_nat (beta * lambda)))⟩,
         ⟨CTag.rangeBits, rangeCheckStmt (simFrLimbs
            (lift_to_bls_nat (proof.s_1 + proof.s_2 * lambda)))⟩,
         ⟨CTag.gateEq, non_zk_comm_chain rescue (lift_to_bls_nat non_zk_state.x)
            (lift_to_bls_nat non_zk_state.y) (lift_to_bls_nat non_zk_state.a)
            (lift_to_bls_nat non_zk_state.b) non_zk_state.r
            = proof.non_zk_part_state_commitment⟩,
         ⟨CTag.enforceZero, sigmaCheckHolds
            (limbsZ (simFrLimbs (lift_to_bls_nat non_zk_state.x)))
            (limbsZ (simFrLimbs (lift_to_bls_nat non_zk_state.y)))
            (limbsZ (simFrLimbs (lift_to_bls_nat non_zk_state.a)))
            (limbsZ (simFrLimbs (lift_to_bls_nat non_zk_state.b)))
            (limbsZ (simFrLimbs (lift_to_bls_nat beta)))
            (limbsZ (simFrLimbs (lift_to_bls_nat lambda)))
            (limbsZ (simFrLimbs (lift_to_bls_nat (beta * lambda))))
            (limbsZ (simFrLimbs (lift_to_bls_nat (proof.s_1 + proof.s_2 * lambda))))⟩,
         ⟨CTag.gateEq, packSimVal (simFrLimbs (lift_to_bls_nat non_zk_state.x)) = amount⟩,
         ⟨CTag.gateEq, packSimVal (simFrLimbs (lift_to_bls_nat non_zk_state.y)) = asset_type⟩] := by
  simp only [build_bar_to_abar_cs, TCS.empty, TCS.new_variable, TCS.zero_var,
    alloc_witness, alloc_witness_bounded_total_bits, alloc_input, TCS.addCon,
    TCS.equal, TCS.linear_combine, TCS.rescue_hash, TCS.prepare_pi_variable,
    foldl_prepare_pi, non_zk_comm_chain, packSimVal]
  simp

/-! ### Values of allocated SimFr limbs -/

lemma p_BLS_big : 2 ^ 43 < p_BLS := by norm_num [p_BLS]

lemma val_cast_chunk (c : ℕ) (hc : c < 2 ^ 43) : ((c : BLS)).val = c :=
  ZMod.val_cast_of_lt (lt_trans hc p_BLS_big)

/-- The allocated limbs always satisfy the plain 43-bit range check. -/
lemma rangeCheckStmt_simFrLimbs (n : ℕ) : rangeCheckStmt (simFrLimbs n) := by
  intro v hv
  simp only [simFrLimbs, List.mem_cons, List.not_mem_nil, or_false] at hv
  rcases hv with rfl | rfl | rfl | rfl | rfl | rfl <;>
    · rw [val_cast_chunk _ (Nat.mod_lt _ (by norm_num))]
      simp only [BIT_PER_LIMB]
      exact Nat.mod_lt _ (by norm_num)

/-- Integer limb values of the allocation are the 43-bit chunks. -/
lemma limbsZ_simFrLimbs (n : ℕ) :
    limbsZ (simFrLimbs n)
      = [((n % 2 ^ 43 : ℕ) : ℤ), ((n / 2 ^ 43 % 2 ^ 43 : ℕ) : ℤ),
         ((n / 2 ^ 86 % 2 ^ 43 : ℕ) : ℤ), ((n / 2 ^ 129 % 2 ^ 43 : ℕ) : ℤ),
         ((n / 2 ^ 172 % 2 ^ 43 : ℕ) : ℤ), ((n / 2 ^ 215 % 2 ^ 43 : ℕ) : ℤ)] := by
  simp only [limbsZ, simFrLimbs, List.map_cons, List.map_nil]
  rw [val_cast_chunk _ (Nat.mod_lt _ (by norm_num)),
    val_cast_chunk _ (Nat.mod_lt _ (by norm_num)),
    val_cast_chunk _ (Nat.mod_lt _ (by norm_num)),
    val_cast_chunk _ (Nat.mod_lt _ (by norm_num)),
    val_cast_chunk _ (Nat.mod_lt _ (by norm_num)),
    val_cast_chunk _ (Nat.mod_lt _ (by norm_num))]

/-- The chunks reconstruct the value (SimFr round-trip, for values below
the 258-bit capacity). -/
lemma limbsVal_simFrLimbs (n : ℕ) (hn : n < 2 ^ 258) :
    limbsVal (limbsZ (simFrLimbs n)) = (n : ℤ) := by
  rw [limbsZ_simFrLimbs]
  simp only [limbsVal, BIT_PER_LIMB]
  have h : (n % 2 ^ 43) + 2 ^ 43 * ((n / 2 ^ 43 % 2 ^ 43)
      + 2 ^ 43 * ((n / 2 ^ 86 % 2 ^ 43) + 2 ^ 43 * ((n / 2 ^ 129 % 2 ^ 43)
      + 2 ^ 43 * ((n / 2 ^ 172 % 2 ^ 43) + 2 ^ 43 * ((n / 2 ^ 215 % 2 ^ 43) + 2 ^ 43 * 0)))))
      = n := by
    omega
  exact_mod_cast congrArg (fun m : ℕ => (m : ℤ)) h

/-- The step-6 repacking gates recover the lifted value in the circuit
field. -/
lemma packSimVal_simFrLimbs (n : ℕ) (hn : n < 2 ^ 258) :
    packSimVal (simFrLimbs n) = (n : BLS) := by
  have h : (n % 2 ^ 43) + 2 ^ 43 * (n / 2 ^ 43 % 2 ^ 43) + 2 ^ 86 * (n / 2 ^ 86 % 2 ^ 43)
      + 2 ^ 129 * (n / 2 ^ 129 % 2 ^ 43) + 2 ^ 172 * (n / 2 ^ 172 % 2 ^ 43)
      + 2 ^ 215 * (n / 2 ^ 215 % 2 ^ 43) = n := by
    omega
  simp only [packSimVal, simFrLimbs, List.getD_cons_zero, List.getD_cons_succ,
    stepPow, BIT_PER_LIMB]
  conv_rhs => rw [← h]
  push_cast
  ring_nf

lemma limbs_six (limbs : List BLS) (h : limbs.length = NUM_OF_LIMBS) :
    ∃ a b c d e f, limbs = [a, b, c, d, e, f] := by
  simp only [NUM_OF_LIMBS] at h
  rcases limbs with _ | ⟨a, _ | ⟨b, _ | ⟨c, _ | ⟨d, _ | ⟨e, _ | ⟨f, _ | ⟨g, rest⟩⟩⟩⟩⟩⟩⟩ <;>
    simp at h
  exact ⟨a, b, c, d, e, f, rfl⟩

/-- Soundness of the 64-bit total bound: any limb assignment satisfying
the recorded constraint packs to a value below `2^64`. -/
lemma boundedTotalStmt_64_lt (limbs : List BLS) (h : boundedTotalStmt 64 limbs) :
    0 ≤ limbsVal (limbsZ limbs) ∧ limbsVal (limbsZ limbs) < 2 ^ 64 := by
  obtain ⟨hlen, hb⟩ := h
  obtain ⟨a, b, c, d, e, f, rfl⟩ := limbs_six _ hlen
  have h0 := hb 0 (by norm_num [NUM_OF_LIMBS])
  have h1 := hb 1 (by norm_num [NUM_OF_LIMBS])
  have h2 := hb 2 (by norm_num [NUM_OF_LIMBS])
  have h3 := hb 3 (by norm_num [NUM_OF_LIMBS])
  have h4 := hb 4 (by norm_num [NUM_OF_LIMBS])
  have h5 := hb 5 (by norm_num [NUM_OF_LIMBS])
  simp only [List.getD_cons_zero, List.getD_cons_succ] at h0 h1 h2 h3 h4 h5
  rw [(by decide : limbBoundNat 64 0 = 2 ^ 43)] at h0
  rw [(by decide : limbBoundNat 64 1 = 2 ^ 21)] at h1
  rw [(by decide : limbBoundNat 64 2 = 1)] at h2
  rw [(by decide : limbBoundNat 64 3 = 1)] at h3
  rw [(by decide : limbBoundNat 64 4 = 1)] at h4
  rw [(by decide : limbBoundNat 64 5 = 1)] at h5
  simp only [limbsZ, List.map_cons, List.map_nil, limbsVal, BIT_PER_LIMB]
  omega

/-- Soundness of the 240-bit total bound. -/
lemma boundedTotalStmt_240_lt (limbs : List BLS) (h : boundedTotalStmt 240 limbs) :
    0 ≤ limbsVal (limbsZ limbs) ∧ limbsVal (limbsZ limbs) < 2 ^ 240 := by
  obtain ⟨hlen, hb⟩ := h
  obtain ⟨a, b, c, d, e, f, rfl⟩ := limbs_six _ hlen
  have h0 := hb 0 (by norm_num [NUM_OF_LIMBS])
  have h1 := hb 1 (by norm_num [NUM_OF_LIMBS])
  have h2 := hb 2 (by norm_num [NUM_OF_LIMBS])
  have h3 := hb 3 (by norm_num [NUM_OF_LIMBS])
  have h4 := hb 4 (by norm_num [NUM_OF_LIMBS])
  have h5 := hb 5 (by norm_num [NUM_OF_LIMBS])
  simp only [List.getD_cons_zero, List.getD_cons_succ] at h0 h1 h2 h3 h4 h5
  rw [(by decide : limbBoundNat 240 0 = 2 ^ 43)] at h0
  rw [(by decide : limbBoundNat 240 1 = 2 ^ 43)] at h1
  rw [(by decide : limbBoundNat 240 2 = 2 ^ 43)] at h2
  rw [(by decide : limbBoundNat 240 3 = 2 ^ 43)] at h3
  rw [(by decide : limbBoundNat 240 4 = 2 ^ 43)] at h4
  rw [(by decide : limbBoundNat 240 5 = 2 ^ 25)] at h5
  simp only [limbsZ, List.map_cons, List.map_nil, limbsVal, BIT_PER_LIMB]
  omega

/-- Completeness of the 64-bit total bound: an honest value below `2^64`
satisfies the recorded constraint. -/
lemma boundedTotalStmt_simFrLimbs_64 (n : ℕ) (hn : n < 2 ^ 64) :
    boundedTotalStmt 64 (simFrLimbs n) := by
  refine ⟨by simp [simFrLimbs, NUM_OF_LIMBS], ?_⟩
  intro i hi
  simp only [NUM_OF_LIMBS] at hi
  interval_cases i
  all_goals {
    simp only [simFrLimbs, List.getD_cons_zero, List.getD_cons_succ,
      limbBoundNat, BIT_PER_LIMB]
    rw [val_cast_chunk _ (Nat.mod_lt _ (by norm_num))]
    norm_num
    omega
  }

/-- Completeness of the 240-bit total bound. -/
lemma boundedTotalStmt_simFrLimbs_240 (n : ℕ) (hn : n < 2 ^ 240) :
    boundedTotalStmt 240 (simFrLimbs n) := by
  refine ⟨by simp [simFrLimbs, NUM_OF_LIMBS], ?_⟩
  intro i hi
  simp only [NUM_OF_LIMBS] at hi
  interval_cases i
  all_goals {
    simp only [simFrLimbs, List.getD_cons_zero, List.getD_cons_succ,
      limbBoundNat, BIT_PER_LIMB]
    rw [val_cast_chunk _ (Nat.mod_lt _ (by norm_num))]
    norm_num
    omega
  }

/-! ## Driver: `bar_to_abar` / `verify_bar_to_abar`
(confidential_to_anonymous.rs lines 110-255)

The source group is an arbitrary additive commutative group; a point is
multiplied by a scalar through the scalar's canonical representative.
Compressed points are opaque values decoded by an abstract `decompress`
(the curve decoding is external to the provided sources).  The external
collaborators — the Rescue permutation, the delegated Chaum-Pedersen
prover/verifier and the PLONK prover/verifier — are parameters whose
contracts (spec §§4.4, 6) appear as hypotheses of the
round-trip theorem. -/

section Driver

variable {G : Type} [AddCommGroup G] {P : Type} {Pf : Type}

/-! ### Pedersen reconstruction -/

lemma nsmul_mod_q (x : G) (hx : q_S • x = 0) (m : ℕ) : m • x = (m % q_S) • x := by
  conv_lhs => rw [← Nat.div_add_mod m q_S]
  rw [add_nsmul, mul_comm, mul_nsmul, smul_comm, hx, smul_zero, zero_add]

lemma nsmul_val_add (x : G) (hx : q_S • x = 0) (a b : RistScalar) :
    (a + b).val • x = a.val • x + b.val • x := by
  have h : (a + b).val = (a.val + b.val) % q_S := ZMod.val_add a b
  rw [h, ← nsmul_mod_q x hx, add_nsmul]

lemma nsmul_val_mul (x : G) (hx : q_S • x = 0) (a b : RistScalar) :
    (a * b).val • x = a.val • b.val • x := by
  have h : (a * b).val = a.val * b.val % q_S := ZMod.val_mul a b
  rw [h, ← nsmul_mod_q x hx, mul_nsmul]
  exact smul_comm _ _ _

/-- Scalar multiplication of a Pedersen commitment rescales both
openings. -/
lemma pointMul_commit (Gg Hg : G) (hG : q_S • Gg = 0) (hH : q_S • Hg = 0)
    (s m r : RistScalar) :
    pointMul s (commit Gg Hg m r) = commit Gg Hg (s * m) (s * r) := by
  unfold commit pointMul
  rw [nsmul_val_mul Gg hG, nsmul_val_mul Hg hH, smul_add]

/-- Pedersen commitments are additively homomorphic. -/
lemma commit_add (Gg Hg : G) (hG : q_S • Gg = 0) (hH : q_S • Hg = 0)
    (m1 r1 m2 r2 : RistScalar) :
    commit Gg Hg m1 r1 + commit Gg Hg m2 r2
      = commit Gg Hg (m1 + m2) (r1 + r2) := by
  unfold commit pointMul
  rw [nsmul_val_add Gg hG, nsmul_val_add Hg hH]
  abel

/-- The verifier's step 1 reconstructs exactly the prover's two Pedersen
commitments `P = Com(x, γ)` and `Q = Com(y, δ)`. -/
lemma step1_reconstructs (decompress : P → Option G) (Gg Hg : G)
    (hG : q_S • Gg = 0) (hH : q_S • Hg = 0) (obar : OpenAssetRecordM P)
    (hm : bar_matches decompress Gg Hg obar) :
    verify_bar_to_abar_step1 decompress Gg Hg obar.blind_asset_record
      = Except.ok
        (commit Gg Hg ((obar.amount : ℕ) : RistScalar)
          (obar.amount_blinds.1
            + obar.amount_blinds.2 * ((TWO_POW_32 : ℕ) : RistScalar)),
         commit Gg Hg obar.asset_type obar.type_blind) := by
  obtain ⟨hma, hmt⟩ := hm
  have hcombine : ∀ bl1 bl2 : RistScalar,
      commit Gg Hg (((u64_to_u32_pair obar.amount).1 : ℕ) : RistScalar) bl1
        + pointMul ((TWO_POW_32 : ℕ) : RistScalar)
            (commit Gg Hg (((u64_to_u32_pair obar.amount).2 : ℕ) : RistScalar) bl2)
      = commit Gg Hg ((obar.amount : ℕ) : RistScalar)
          (bl1 + bl2 * ((TWO_POW_32 : ℕ) : RistScalar)) := by
    intro bl1 bl2
    rw [pointMul_commit Gg Hg hG hH, commit_add Gg Hg hG hH]
    have hamt : ((obar.amount : ℕ) : RistScalar)
        = (((u64_to_u32_pair obar.amount).1 : ℕ) : RistScalar)
          + ((TWO_POW_32 : ℕ) : RistScalar)
            * (((u64_to_u32_pair obar.amount).2 : ℕ) : RistScalar) := by
      have hsplit : obar.amount
          = (u64_to_u32_pair obar.amount).1
            + TWO_POW_32 * (u64_to_u32_pair obar.amount).2 := by
        simp only [u64_to_u32_pair, TWO_POW_32]
        omega
      conv_lhs => rw [hsplit]
      push_cast
      ring
    rw [← hamt]
    congr 1
    ring
  rcases hobar : obar.blind_asset_record.amount with ⟨low, high⟩ | amount <;>
    rcases hobat : obar.blind_asset_record.asset_type with cc | s <;>
      rw [hobar] at hma <;> rw [hobat] at hmt <;>
        simp only at hma hmt
  · obtain ⟨hlow, hhigh⟩ := hma
    simp only [verify_bar_to_abar_step1, hobar, hobat, hlow, hhigh, hmt, hcombine]
  · obtain ⟨hlow, hhigh⟩ := hma
    obtain ⟨rfl, hbt⟩ := hmt
    simp only [verify_bar_to_abar_step1, hobar, hobat, hlow, hhigh, hcombine, hbt]
  · obtain ⟨rfl, hbl⟩ := hma
    have hb1 : obar.amount_blinds.1 = 0 := by rw [hbl]
    have hb2 : obar.amount_blinds.2 = 0 := by rw [hbl]
    simp only [verify_bar_to_abar_step1, hobar, hobat, hmt, hcombine, hb1, hb2]
  · obtain ⟨rfl, hbl⟩ := hma
    obtain ⟨rfl, hbt⟩ := hmt
    have hb1 : obar.amount_blinds.1 = 0 := by rw [hbl]
    have hb2 : obar.amount_blinds.2 = 0 := by rw [hbl]
    simp only [verify_bar_to_abar_step1, hobar, hobat, hcombine, hb1, hb2, hbt]

/-! ### Honest-witness satisfaction of the circuit -/

lemma lift_lt_cap (v : RistScalar) : lift_to_bls_nat v < 2 ^ 258 := by
  rw [lift_to_bls_nat_eq]
  have h := ZMod.val_lt v
  have h2 : q_S < 2 ^ 258 := by norm_num [q_S]
  omega

lemma natCast_val_rist (v : RistScalar) : ((v.val : ℕ) : ZMod q_S) = v := by
  rw [ZMod.natCast_val, ZMod.cast_id]

/-- The witness the honest prover feeds the circuit satisfies every
recorded constraint, provided the sigma prover returned responses
satisfying the circuit-side identity, the commitment `comm` really is the
Rescue chain over the witness limbs, and the committed values obey the
bit bounds. -/
lemma build_bar_to_abar_cs_satisfied
    (rescue : BLS × BLS × BLS × BLS → BLS × BLS × BLS × BLS)
    (proof : ZKPartProof) (nz : NonZKState) (beta lambda : RistScalar)
    (blind pubx : BLS)
    (hx64 : nz.x.val < 2 ^ 64) (hy240 : nz.y.val < 2 ^ 240)
    (hcomm : proof.non_zk_part_state_commitment
      = non_zk_comm_chain rescue (lift_to_bls_nat nz.x) (lift_to_bls_nat nz.y)
          (lift_to_bls_nat nz.a) (lift_to_bls_nat nz.b) nz.r)
    (hident : beta * nz.x + beta * lambda * nz.y + lambda * nz.b
      - (proof.s_1 + proof.s_2 * lambda - nz.a) = 0) :
    (build_bar_to_abar_cs rescue ((lift_to_bls_nat nz.x : ℕ) : BLS)
      ((lift_to_bls_nat nz.y : ℕ) : BLS) blind pubx proof nz
      beta lambda).satisfied := by
  intro c hc
  rw [build_bar_to_abar_cs_cons] at hc
  simp only [List.mem_cons, List.not_mem_nil, or_false] at hc
  rcases hc with rfl | rfl | rfl | rfl | rfl | rfl | rfl | rfl | rfl | rfl | rfl | rfl
  · exact boundedTotalStmt_simFrLimbs_64 _ (by rw [lift_to_bls_nat_eq]; exact hx64)
  · exact boundedTotalStmt_simFrLimbs_240 _ (by rw [lift_to_bls_nat_eq]; exact hy240)
  · exact rangeCheckStmt_simFrLimbs _
  · exact rangeCheckStmt_simFrLimbs _
  · exact rangeCheckStmt_simFrLimbs _
  · exact rangeCheckStmt_simFrLimbs _
  · exact rangeCheckStmt_simFrLimbs _
  · exact rangeCheckStmt_simFrLimbs _
  · exact hcomm.symm
  · show sigmaCheckHolds _ _ _ _ _ _ _ _
    rw [sigmaCheckHolds_iff]
    rw [limbsVal_simFrLimbs _ (lift_lt_cap nz.x),
      limbsVal_simFrLimbs _ (lift_lt_cap nz.y),
      limbsVal_simFrLimbs _ (lift_lt_cap nz.a),
      limbsVal_simFrLimbs _ (lift_lt_cap nz.b),
      limbsVal_simFrLimbs _ (lift_lt_cap beta),
      limbsVal_simFrLimbs _ (lift_lt_cap lambda),
      limbsVal_simFrLimbs _ (lift_lt_cap (beta * lambda)),
      limbsVal_simFrLimbs _ (lift_lt_cap (proof.s_1 + proof.s_2 * lambda))]
    rw [← ZMod.intCast_zmod_eq_zero_iff_dvd]
    push_cast
    simp only [lift_to_bls_nat_eq, natCast_val_rist]
    linear_combination hident
  · exact packSimVal_simFrLimbs _ (lift_lt_cap nz.x)
  · exact packSimVal_simFrLimbs _ (lift_lt_cap nz.y)

lemma val_cast_amount (amount : ℕ) (h : amount < 2 ^ 64) :
    (((amount : ℕ) : RistScalar)).val = amount := by
  apply ZMod.val_cast_of_lt
  have h2 : (2:ℕ) ^ 64 < q_S := by norm_num [q_S]
  omega

/-- C2: completeness round-trip of the conversion: for every amount below
`2^64`, every asset type with fewer than 240 significant bits, every pair
of Pedersen blinds, every Rescue blind and public-key x-coordinate,
running `bar_to_abar` and then `verify_bar_to_abar` on its outputs
returns `Ok`, under the spec contracts of the external collaborators
(sigma protocol §4.4, PLONK §6) and the consistency of the open record
with its BAR. -/
theorem C2_bar_to_abar_roundtrip
    (rescue : BLS × BLS × BLS × BLS → BLS × BLS × BLS × BLS)
    (sigProve : RistScalar → RistScalar → RistScalar → RistScalar → G → G → BLS
      → ZKPartProof × NonZKState × RistScalar × RistScalar)
    (sigVerify : G → G → BLS → ZKPartProof
      → Except ZeiError (RistScalar × RistScalar))
    (plonkProve : TCS → Except ZeiError Pf)
    (plonkVerify : List BLS → Pf → Except ZeiError Unit)
    (decompress : P → Option G) (Gg Hg : G)
    (obar : OpenAssetRecordM P) (abar_pubkey_x oabar_blind : BLS)
    (hG : q_S • Gg = 0) (hH : q_S • Hg = 0)
    (hamount : obar.amount < 2 ^ 64)
    (hasset : obar.asset_type.val < 2 ^ 240)
    (hbar : bar_matches decompress Gg Hg obar)
    (hsig : ∀ x gam y del Pp Qq z pf nzs bet lam,
      sigProve x gam y del Pp Qq z = (pf, nzs, bet, lam) →
      sigVerify Pp Qq z pf = Except.ok (bet, lam)
      ∧ nzs.x = x ∧ nzs.y = y
      ∧ bet * x + bet * lam * y + lam * nzs.b
          - (pf.s_1 + pf.s_2 * lam - nzs.a) = 0
      ∧ pf.non_zk_part_state_commitment
          = non_zk_comm_chain rescue (lift_to_bls_nat x) (lift_to_bls_nat y)
              (lift_to_bls_nat nzs.a) (lift_to_bls_nat nzs.b) nzs.r)
    (hplonk : ∀ cs : TCS, cs.satisfied →
      ∃ pf, plonkProve cs = Except.ok pf ∧ plonkVerify cs.pubs pf = Except.ok ()) :
    ∃ abar prf,
      bar_to_abar rescue sigProve plonkProve Gg Hg obar abar_pubkey_x oabar_blind
        = Except.ok (abar, prf)
      ∧ verify_bar_to_abar decompress sigVerify plonkVerify Gg Hg
          obar.blind_asset_record abar prf = Except.ok () := by
  set x : RistScalar := ((obar.amount : ℕ) : RistScalar) with hxdef
  set gam : RistScalar := obar.amount_blinds.1
    + obar.amount_blinds.2 * ((TWO_POW_32 : ℕ) : RistScalar) with hgamdef
  set y : RistScalar := obar.asset_type with hydef
  set del : RistScalar := obar.type_blind with hdeldef
  set Pp : G := commit Gg Hg x gam with hPdef
  set Qq : G := commit Gg Hg y del with hQdef
  set z : BLS := rescue_comm_chain rescue oabar_blind
    ((lift_to_bls_nat x : ℕ) : BLS) ((lift_to_bls_nat y : ℕ) : BLS)
    abar_pubkey_x with hzdef
  rcases hrr : sigProve x gam y del Pp Qq z with ⟨pf, rest⟩
  rcases rest with ⟨nzs, bl⟩
  rcases bl with ⟨bet, lam⟩
  obtain ⟨hver, hnzx, hnzy, hident, hcomm⟩ :=
    hsig x gam y del Pp Qq z pf nzs bet lam hrr
  have hx64 : nzs.x.val < 2 ^ 64 := by
    rw [hnzx, hxdef, val_cast_amount _ hamount]
    exact hamount
  have hy240 : nzs.y.val < 2 ^ 240 := by rw [hnzy, hydef]; exact hasset
  have hcomm' : pf.non_zk_part_state_commitment
      = non_zk_comm_chain rescue (lift_to_bls_nat nzs.x) (lift_to_bls_nat nzs.y)
          (lift_to_bls_nat nzs.a) (lift_to_bls_nat nzs.b) nzs.r := by
    rw [hnzx, hnzy]; exact hcomm
  have hident' : bet * nzs.x + bet * lam * nzs.y + lam * nzs.b
      - (pf.s_1 + pf.s_2 * lam - nzs.a) = 0 := by
    rw [hnzx, hnzy]; exact hident
  have hsat := build_bar_to_abar_cs_satisfied rescue pf nzs bet lam
    oabar_blind abar_pubkey_x hx64 hy240 hcomm' hident'
  rw [hnzx, hnzy] at hsat
  obtain ⟨plonkpf, hprove, hverif⟩ := hplonk _ hsat
  refine ⟨⟨z⟩, ⟨pf, plonkpf⟩, ?_, ?_⟩
  · simp only [bar_to_abar, ← hxdef, ← hgamdef, ← hydef, ← hdeldef, ← hPdef,
      ← hQdef, ← hzdef, hrr, hprove]
  · simp only [verify_bar_to_abar,
      step1_reconstructs decompress Gg Hg hG hH obar hbar, ← hxdef, ← hgamdef,
      ← hydef, ← hdeldef, ← hPdef, ← hQdef]
    rw [hver]
    simp only [verify_eq_committed_vals]
    have hpubs : verify_eq_committed_vals_online_inputs z pf bet lam
        = (build_bar_to_abar_cs rescue ((lift_to_bls_nat x : ℕ) : BLS)
            ((lift_to_bls_nat y : ℕ) : BLS) oabar_blind abar_pubkey_x pf nzs
            bet lam).pubs := by
      rw [online_inputs_layout, build_bar_to_abar_cs_pubs, hzdef]
    rw [hpubs]
    exact hverif

end Driver

/-! ## Claim theorems -/

/-- C1: the verifier assembles the PLONK online inputs as exactly 26
circuit-field values in the fixed order `z`, `non_zk_part_state_commitment`,
then the six limbs each of `β`, `λ`, `β·λ` and `s₁ + λ·s₂` (the last two
computed in the source scalar field first and then lifted limb-wise), and
the circuit declares its public-input wires in exactly the same order,
with the Rescue commitment in slot 0 and `comm` in slot 1. -/
theorem C1_online_inputs_assembly
    (rescue : BLS × BLS × BLS × BLS → BLS × BLS × BLS × BLS)
    (hash_comm amount asset_type blind_hash pubkey_x : BLS)
    (proof : ZKPartProof) (non_zk_state : NonZKState)
    (beta lambda : RistScalar) :
    verify_eq_committed_vals_online_inputs hash_comm proof beta lambda
      = hash_comm :: proof.non_zk_part_state_commitment
        :: (simFrLimbs (lift_to_bls_nat beta)
            ++ simFrLimbs (lift_to_bls_nat lambda)
            ++ simFrLimbs (lift_to_bls_nat (beta * lambda))
            ++ simFrLimbs (lift_to_bls_nat (proof.s_1 + proof.s_2 * lambda)))
    ∧ (verify_eq_committed_vals_online_inputs hash_comm proof beta lambda).length = 26
    ∧ (build_bar_to_abar_cs rescue amount asset_type blind_hash pubkey_x
        proof non_zk_state beta lambda).pubs
      = rescue_comm_chain rescue blind_hash amount asset_type pubkey_x
        :: proof.non_zk_part_state_commitment
        :: (simFrLimbs (lift_to_bls_nat beta)
            ++ simFrLimbs (lift_to_bls_nat lambda)
            ++ simFrLimbs (lift_to_bls_nat (beta * lambda))
            ++ simFrLimbs (lift_to_bls_nat (proof.s_1 + proof.s_2 * lambda))) :=
  ⟨online_inputs_layout hash_comm proof beta lambda,
   online_inputs_length hash_comm proof beta lambda,
   build_bar_to_abar_cs_pubs rescue amount asset_type blind_hash pubkey_x
     proof non_zk_state beta lambda⟩

/-- C3: the circuit's field-simulation step records exactly one
`enforce_zero` constraint, the constraint is the sigma identity over the
allocated limb wires, and, for every limb assignment, that constraint
holds precisely when `β·x + (β·λ)·y + λ·b − (s₁+λ·s₂ − a) ≡ 0 (mod q_S)`
on the limb values. -/
theorem C3_sigma_identity_enforced
    (rescue : BLS × BLS × BLS × BLS → BLS × BLS × BLS × BLS)
    (amount asset_type blind_hash pubkey_x : BLS)
    (proof : ZKPartProof) (non_zk_state : NonZKState)
    (beta lambda : RistScalar) :
    (∀ xl yl al bl betal lambdal betalambdal sl : List ℤ,
      sigmaCheckHolds xl yl al bl betal lambdal betalambdal sl ↔
        (q_S : ℤ) ∣ (limbsVal betal * limbsVal xl
          + limbsVal betalambdal * limbsVal yl
          + limbsVal lambdal * limbsVal bl
          - (limbsVal sl - limbsVal al)))
    ∧ (⟨CTag.enforceZero, sigmaCheckHolds
        (limbsZ (simFrLimbs (lift_to_bls_nat non_zk_state.x)))
        (limbsZ (simFrLimbs (lift_to_bls_nat non_zk_state.y)))
        (limbsZ (simFrLimbs (lift_to_bls_nat non_zk_state.a)))
        (limbsZ (simFrLimbs (lift_to_bls_nat non_zk_state.b)))
        (limbsZ (simFrLimbs (lift_to_bls_nat beta)))
        (limbsZ (simFrLimbs (lift_to_bls_nat lambda)))
        (limbsZ (simFrLimbs (lift_to_bls_nat (beta * lambda))))
        (limbsZ (simFrLimbs (lift_to_bls_nat (proof.s_1 + proof.s_2 * lambda))))⟩
      ∈ (build_bar_to_abar_cs rescue amount asset_type blind_hash pubkey_x
          proof non_zk_state beta lambda).cons)
    ∧ ((build_bar_to_abar_cs rescue amount asset_type blind_hash pubkey_x
          proof non_zk_state beta lambda).cons.countP
        (fun c => c.tag == CTag.enforceZero)) = 1 := by
  refine ⟨sigmaCheckHolds_iff, ?_, ?_⟩
  · rw [build_bar_to_abar_cs_cons]
    simp
  · rw [build_bar_to_abar_cs_cons]
    rfl

/-- C7: the ABAR commitment returned by the prover is the two-stage
Rescue chain over the Rescue blind, the amount and asset-type scalars
lifted to the circuit field by little-endian byte reinterpretation, and
the public-key x-coordinate; and the circuit recomputes exactly this
chain from its native witness wires and exposes it as public-input slot
0. -/
theorem C7_rescue_commitment_chain {G : Type} [AddCommGroup G] {P Pf : Type}
    (rescue : BLS × BLS × BLS × BLS → BLS × BLS × BLS × BLS)
    (sigProve : RistScalar → RistScalar → RistScalar → RistScalar → G → G → BLS
      → ZKPartProof × NonZKState × RistScalar × RistScalar)
    (plonkProve : TCS → Except ZeiError Pf)
    (Gg Hg : G) (obar : OpenAssetRecordM P) (abar_pubkey_x oabar_blind : BLS)
    (abar : AnonBlindAssetRecordM) (prf : ConvertBarAbarProof Pf)
    (hok : bar_to_abar rescue sigProve plonkProve Gg Hg obar abar_pubkey_x
      oabar_blind = Except.ok (abar, prf))
    (proof : ZKPartProof) (non_zk_state : NonZKState)
    (amount asset_type blind_hash pubkey_x : BLS) (beta lambda : RistScalar) :
    abar.commitment
      = (rescue ((rescue (oabar_blind,
          ((fromBytesLE (toBytesLE 32 (((obar.amount : ℕ) : RistScalar)).val) : ℕ) : BLS),
          ((fromBytesLE (toBytesLE 32 obar.asset_type.val) : ℕ) : BLS),
          0)).1, abar_pubkey_x, 0, 0)).1
    ∧ (build_bar_to_abar_cs rescue amount asset_type blind_hash pubkey_x
        proof non_zk_state beta lambda).pubs.getD 0 0
      = rescue_comm_chain rescue blind_hash amount asset_type pubkey_x := by
  constructor
  · simp only [bar_to_abar] at hok
    generalize hpl : plonkProve _ = pres at hok
    cases pres with
    | error e => simp at hok
    | ok v =>
        simp only [Except.ok.injEq, Prod.mk.injEq] at hok
        obtain ⟨habar, -⟩ := hok
        rw [← habar]
        rfl
  · rw [build_bar_to_abar_cs_pubs]
    simp

/-- C8: the circuit allocates the simulated witness for `x` with a total
bit bound of 64 and the one for `y` with a total bit bound of 240, while
`a` and `b` get only the plain full-range limb checks; and any limb
assignment satisfying the 64- (resp. 240-) bit bounded constraint packs
to a value below `2^64` (resp. `2^240`). -/
theorem C8_bit_bounds
    (rescue : BLS × BLS × BLS × BLS → BLS × BLS × BLS × BLS)
    (amount asset_type blind_hash pubkey_x : BLS)
    (proof : ZKPartProof) (non_zk_state : NonZKState)
    (beta lambda : RistScalar) :
    (⟨CTag.boundedRange, boundedTotalStmt 64
        (simFrLimbs (lift_to_bls_nat non_zk_state.x))⟩
      ∈ (build_bar_to_abar_cs rescue amount asset_type blind_hash pubkey_x
          proof non_zk_state beta lambda).cons)
    ∧ (⟨CTag.boundedRange, boundedTotalStmt 240
        (simFrLimbs (lift_to_bls_nat non_zk_state.y))⟩
      ∈ (build_bar_to_abar_cs rescue amount asset_type blind_hash pubkey_x
          proof non_zk_state beta lambda).cons)
    ∧ (⟨CTag.rangeBits, rangeCheckStmt
        (simFrLimbs (lift_to_bls_nat non_zk_state.a))⟩
      ∈ (build_bar_to_abar_cs rescue amount asset_type blind_hash pubkey_x
          proof non_zk_state beta lambda).cons)
    ∧ (⟨CTag.rangeBits, rangeCheckStmt
        (simFrLimbs (lift_to_bls_nat non_zk_state.b))⟩
      ∈ (build_bar_to_abar_cs rescue amount asset_type blind_hash pubkey_x
          proof non_zk_state beta lambda).cons)
    ∧ (∀ limbs : List BLS, boundedTotalStmt 64 limbs →
        limbsVal (limbsZ limbs) < 2 ^ 64)
    ∧ (∀ limbs : List BLS, boundedTotalStmt 240 limbs →
        limbsVal (limbsZ limbs) < 2 ^ 240) := by
  refine ⟨?_, ?_, ?_, ?_,
    fun limbs h => (boundedTotalStmt_64_lt limbs h).2,
    fun limbs h => (boundedTotalStmt_240_lt limbs h).2⟩
  all_goals {
    rw [build_bar_to_abar_cs_cons]
    simp
  }

/-- C4 (counterexample): on the empty scalar list `vartime_multi_exp`
does not return a group element — the column iterator is empty and the
`unwrap` panics, modelled by `none`.  This refutes the claim that the
empty input yields the group identity without panicking. -/
theorem C4_counterexample_empty_input_panics :
    vartime_multi_exp ([] : List ℕ) ([] : List ℤ) = none := rfl

/-- C4 (amended): for every non-empty scalar list `vartime_multi_exp`
returns a group element (no panic is possible), while on the empty scalar
list the `cols.next().unwrap()` panics. -/
theorem C4_amended_no_panic_on_nonempty {G : Type} [AddCommGroup G]
    (scalars : List ℕ) (points : List G) :
    (scalars ≠ [] → (vartime_multi_exp scalars points).isSome)
    ∧ vartime_multi_exp ([] : List ℕ) points = none :=
  ⟨fun h => pippenger_isSome scalars points h, rfl⟩

/-- C4 witness. -/
theorem C4_amended_witness :
    (vartime_multi_exp [3] ([5] : List ℤ)).isSome
    ∧ vartime_multi_exp ([] : List ℕ) ([5] : List ℤ) = none :=
  ⟨(C4_amended_no_panic_on_nonempty [3] [(5 : ℤ)]).1 (by decide),
   (C4_amended_no_panic_on_nonempty [3] [(5 : ℤ)]).2⟩

/-- C5: on any fixed non-empty equally-long scalar/point lists (scalars
in canonical 32-byte form), the windowed Pippenger `vartime_multi_exp`
returns exactly the naive fold of scalar multiplications. -/
theorem C5_vartime_eq_naive {G : Type} [AddCommGroup G]
    (scalars : List ℕ) (points : List G) (hne : scalars ≠ [])
    (hlen : scalars.length = points.length)
    (hbound : ∀ s ∈ scalars, s < 2 ^ 256) :
    vartime_multi_exp scalars points = some (naive_multi_exp scalars points) :=
  pippenger_eq_naive scalars points hne hbound

/-- C5 witness. -/
theorem C5_vartime_eq_naive_witness :
    vartime_multi_exp [3, 5] ([1, 2] : List ℤ)
      = some (naive_multi_exp [3, 5] ([1, 2] : List ℤ)) :=
  C5_vartime_eq_naive [3, 5] [(1 : ℤ), 2] (by decide) (by decide)
    (by intro s hs; fin_cases hs <;> norm_num)

/-- C10 (counterexample): `Scalar::from_bytes` does not reinterpret the
bits of every 32-byte input: for the input whose integer value is
`2^255` (only the top bit of byte 31 set), the stored scalar is `0`, not
`2^255`, because `from_bits` clears the top bit. -/
theorem C10_counterexample_top_bit_cleared :
    scalar_from_bytes (List.replicate 31 0 ++ [128]) = some 0
    ∧ fromBytesLE (List.replicate 31 0 ++ [128]) = 2 ^ 255
    ∧ (0 : ℕ) ≠ 2 ^ 255 := by
  refine ⟨by decide, by decide, by norm_num⟩

/-- C10 (amended): `Scalar::from_bytes` panics (via `copy_from_slice`)
for every input slice whose length is not 32; for 32-byte inputs it
clears the top bit and keeps the remaining 255 bits verbatim with no
canonicity check, so non-canonical strings below `2^255` — such as the
encoding of `q_S` itself — are accepted unreduced. -/
theorem C10_amended_from_bytes :
    (∀ bytes : List ℕ, bytes.length ≠ 32 → scalar_from_bytes bytes = none)
    ∧ (∀ bytes : List ℕ, bytes.length = 32 →
        scalar_from_bytes bytes = some (fromBytesLE bytes % 2 ^ 255))
    ∧ scalar_from_bytes (toBytesLE 32 q_S) = some q_S
    ∧ q_S % q_S = 0 ∧ q_S ≠ 0 := by
  refine ⟨?_, ?_, ?_, Nat.mod_self _, by norm_num [q_S]⟩
  · intro bytes h
    simp [scalar_from_bytes, h]
  · intro bytes h
    simp [scalar_from_bytes, scalar_from_bits, h]
  · have hlen : (toBytesLE 32 q_S).length = 32 := toBytesLE_length 32 q_S
    have hval : fromBytesLE (toBytesLE 32 q_S) = q_S :=
      fromBytesLE_toBytesLE 32 q_S (by norm_num [q_S])
    simp only [scalar_from_bytes, scalar_from_bits, hlen, if_pos, hval]
    rw [Nat.mod_eq_of_lt (by norm_num [q_S])]

/-- C10 witness. -/
theorem C10_amended_witness :
    scalar_from_bytes ([] : List ℕ) = none
    ∧ scalar_from_bytes (toBytesLE 32 q_S) = some q_S :=
  ⟨C10_amended_from_bytes.1 [] (by decide), C10_amended_from_bytes.2.2.1⟩

/-- C6: in step 1 of `verify_bar_to_abar`, a failed decompression of any
stored confidential commitment (amount-low, amount-high, or asset type)
makes the function return `DecompressElementError`; non-confidential
values yield synthetic zero-blind commitments `Com(value, 0)`; and the
full amount commitment is `com_low + 2^32 · com_high`. -/
theorem C6_step1_error_handling {G : Type} [AddCommGroup G] {P : Type}
    (decompress : P → Option G) (Gg Hg : G) :
    (∀ (low high : P) (att : XfrAssetType P), decompress low = none →
      verify_bar_to_abar_step1 decompress Gg Hg
        ⟨XfrAmount.confidential low high, att⟩
        = Except.error ZeiError.DecompressElementError)
    ∧ (∀ (low high : P) (att : XfrAssetType P), decompress high = none →
      verify_bar_to_abar_step1 decompress Gg Hg
        ⟨XfrAmount.confidential low high, att⟩
        = Except.error ZeiError.DecompressElementError)
    ∧ (∀ (am : XfrAmount P) (c : P), decompress c = none →
      verify_bar_to_abar_step1 decompress Gg Hg ⟨am, XfrAssetType.confidential c⟩
        = Except.error ZeiError.DecompressElementError)
    ∧ (∀ (amount : ℕ) (s : RistScalar),
      verify_bar_to_abar_step1 decompress Gg Hg
        ⟨XfrAmount.nonConfidential amount, XfrAssetType.nonConfidential s⟩
        = Except.ok
          (commit Gg Hg (((u64_to_u32_pair amount).1 : ℕ) : RistScalar) 0
            + pointMul ((TWO_POW_32 : ℕ) : RistScalar)
                (commit Gg Hg (((u64_to_u32_pair amount).2 : ℕ) : RistScalar) 0),
           commit Gg Hg s 0))
    ∧ (∀ (low high : P) (lg hg : G) (s : RistScalar),
      decompress low = some lg → decompress high = some hg →
      verify_bar_to_abar_step1 decompress Gg Hg
        ⟨XfrAmount.confidential low high, XfrAssetType.nonConfidential s⟩
        = Except.ok (lg + pointMul ((TWO_POW_32 : ℕ) : RistScalar) hg,
            commit Gg Hg s 0)) := by
  refine ⟨?_, ?_, ?_, ?_, ?_⟩
  · intro low high att h
    simp [verify_bar_to_abar_step1, h]
  · intro low high att h
    rcases hl : decompress low with _ | lg <;>
      simp [verify_bar_to_abar_step1, hl, h]
  · intro am c h
    rcases am with ⟨low, high⟩ | amount
    · rcases hl : decompress low with _ | lg
      · simp [verify_bar_to_abar_step1, hl]
      · rcases hh : decompress high with _ | hg <;>
          simp [verify_bar_to_abar_step1, hl, hh, h]
    · simp [verify_bar_to_abar_step1, h]
  · intro amount s
    simp [verify_bar_to_abar_step1]
  · intro low high lg hg s hl hh
    simp [verify_bar_to_abar_step1, hl, hh]

/-- C6 witness. -/
theorem C6_step1_witness :
    verify_bar_to_abar_step1 (fun b : Bool => if b then some (7 : ℤ) else none)
      (1 : ℤ) (0 : ℤ) ⟨XfrAmount.confidential false true,
        XfrAssetType.nonConfidential 0⟩
      = Except.error ZeiError.DecompressElementError
    ∧ verify_bar_to_abar_step1 (fun b : Bool => if b then some (7 : ℤ) else none)
        (1 : ℤ) (0 : ℤ) ⟨XfrAmount.nonConfidential 5,
          XfrAssetType.nonConfidential 2⟩
      = Except.ok
          (commit (1:ℤ) 0 (((u64_to_u32_pair 5).1 : ℕ) : RistScalar) 0
            + pointMul ((TWO_POW_32 : ℕ) : RistScalar)
                (commit (1:ℤ) 0 (((u64_to_u32_pair 5).2 : ℕ) : RistScalar) 0),
           commit (1:ℤ) 0 2 0) :=
  ⟨(C6_step1_error_handling (fun b : Bool => if b then some (7 : ℤ) else none)
      1 0).1 false true (XfrAssetType.nonConfidential 0) rfl,
   (C6_step1_error_handling (fun b : Bool => if b then some (7 : ℤ) else none)
      1 0).2.2.2.1 5 2⟩

/-- C9: `verify_bar_to_abar_note` returns `Ok` exactly when the body
verifies and the signature verifies over the bincode serialization of the
body; in particular, with a signature scheme that rejects signatures made
over a different message, replacing the signature by one over any other
message makes the verification fail. -/
theorem C9_note_verification {Bd Sig PK SK : Type}
    (verify_body : Bd → Except ZeiError Unit)
    (serialize : Bd → Option (List ℕ))
    (sig_verify : PK → List ℕ → Sig → Except ZeiError Unit)
    (sign : SK → List ℕ → Sig)
    (hscheme : ∀ (pk : PK) (sk : SK) (m msg' : List ℕ), m ≠ msg' →
      sig_verify pk m (sign sk msg') ≠ Except.ok ()) :
    (∀ (note : BarToAbarNoteM Bd Sig) (pk : PK),
      verify_bar_to_abar_note verify_body serialize sig_verify note pk
          = Except.ok ()
        ↔ verify_body note.body = Except.ok ()
          ∧ ∃ m, serialize note.body = some m
            ∧ sig_verify pk m note.signature = Except.ok ())
    ∧ (∀ (body : Bd) (pk : PK) (sk : SK) (m msg' : List ℕ),
        serialize body = some m → msg' ≠ m →
        verify_bar_to_abar_note verify_body serialize sig_verify
          ⟨body, sign sk msg'⟩ pk ≠ Except.ok ()) := by
  constructor
  · intro note pk
    unfold verify_bar_to_abar_note
    rcases hb : verify_body note.body with e | u
    · simp [hb]
    · cases u
      rcases hs : serialize note.body with _ | m
      · simp [hs]
      · simp [hs]
  · intro body pk sk m msg' hser hne
    unfold verify_bar_to_abar_note
    rcases hb : verify_body body with e | u
    · simp
    · cases u
      simp only [hser]
      exact hscheme pk sk m msg' (fun h => hne h.symm)

/-- C9 witness. -/
theorem C9_note_verification_witness :
    verify_bar_to_abar_note (fun _ : ℕ => Except.ok ())
      (fun b : ℕ => some [b])
      (fun (_ : Unit) (m : List ℕ) (s : List ℕ) =>
        if s = m then Except.ok () else Except.error ZeiError.SignatureError)
      ⟨0, [1]⟩ () ≠ Except.ok () :=
  (C9_note_verification (fun _ : ℕ => Except.ok ())
    (fun b : ℕ => some [b])
    (fun (_ : Unit) (m : List ℕ) (s : List ℕ) =>
      if s = m then Except.ok () else Except.error ZeiError.SignatureError)
    (fun (_ : Unit) (msg : List ℕ) => msg)
    (by
      intro pk sk m msg' hne hcontra
      have hthis : (if msg' = m then (Except.ok () : Except ZeiError Unit)
          else Except.error ZeiError.SignatureError) = Except.ok () := hcontra
      rw [if_neg (fun hh : msg' = m => hne hh.symm)] at hthis
      exact absurd hthis (by simp))).2 0 () () [0] [1] rfl (by decide)

/-- C2 witness. -/
theorem C2_bar_to_abar_roundtrip_witness :
    ∃ (abar : AnonBlindAssetRecordM) (prf : ConvertBarAbarProof Unit),
      bar_to_abar (fun t => t)
        (fun x _gam y _del _Pp _Qq _z =>
          (⟨non_zk_comm_chain (fun t => t) (lift_to_bls_nat x) (lift_to_bls_nat y)
              (lift_to_bls_nat 0) (lift_to_bls_nat 0) 0, 0, 0⟩,
           ⟨x, y, 0, 0, 0⟩, 0, 0))
        (fun _ => Except.ok ()) (1 : ZMod q_S) (0 : ZMod q_S)
        (⟨0, 0, (0, 0), 0, ⟨XfrAmount.nonConfidential 0,
          XfrAssetType.nonConfidential 0⟩⟩ : OpenAssetRecordM Bool) 0 0
        = Except.ok (abar, prf)
      ∧ verify_bar_to_abar (fun _ : Bool => none)
          (fun _ _ _ _ => Except.ok ((0 : RistScalar), (0 : RistScalar)))
          (fun _ _ => Except.ok ()) (1 : ZMod q_S) (0 : ZMod q_S)
          (⟨XfrAmount.nonConfidential 0, XfrAssetType.nonConfidential 0⟩ :
            BlindAssetRecord Bool) abar prf = Except.ok () :=
  C2_bar_to_abar_roundtrip (fun t => t)
    (fun x _gam y _del _Pp _Qq _z =>
      (⟨non_zk_comm_chain (fun t => t) (lift_to_bls_nat x) (lift_to_bls_nat y)
          (lift_to_bls_nat 0) (lift_to_bls_nat 0) 0, 0, 0⟩,
       ⟨x, y, 0, 0, 0⟩, 0, 0))
    (fun _ _ _ _ => Except.ok ((0 : RistScalar), (0 : RistScalar)))
    (fun _ => Except.ok ()) (fun _ _ => Except.ok ())
    (fun _ : Bool => none) (1 : ZMod q_S) (0 : ZMod q_S)
    ⟨0, 0, (0, 0), 0, ⟨XfrAmount.nonConfidential 0,
      XfrAssetType.nonConfidential 0⟩⟩ 0 0
    (by rw [nsmul_eq_mul, mul_one]; exact ZMod.natCast_self q_S)
    (smul_zero q_S)
    (by norm_num)
    (by rw [ZMod.val_zero]; norm_num)
    ⟨⟨rfl, rfl⟩, rfl, rfl⟩
    (by
      intro x gam y del Pp Qq z pf nzs bet lam heq
      simp only [Prod.mk.injEq] at heq
      obtain ⟨hpf, hnzs, hbet, hlam⟩ := heq
      subst hpf
      subst hnzs
      subst hbet
      subst hlam
      refine ⟨rfl, rfl, rfl, by ring, rfl⟩)
    (fun cs _ => ⟨(), rfl, rfl⟩)

/-- C7 witness. -/
theorem C7_rescue_commitment_chain_witness :
    ((0 : BLS) = (0 : BLS))
    ∧ (build_bar_to_abar_cs (fun t => t) 0 0 0 0 ⟨0, 0, 0⟩ ⟨0, 0, 0, 0, 0⟩
        0 0).pubs.getD 0 0
      = rescue_comm_chain (fun t => t) 0 0 0 0 :=
  C7_rescue_commitment_chain (fun t => t)
    (fun _ _ _ _ _ _ _ => (⟨0, 0, 0⟩, ⟨0, 0, 0, 0, 0⟩, 0, 0))
    (fun _ => Except.ok ()) (1 : ZMod q_S) (0 : ZMod q_S)
    (⟨0, 0, (0, 0), 0, ⟨XfrAmount.nonConfidential 0,
      XfrAssetType.nonConfidential 0⟩⟩ : OpenAssetRecordM Bool)
    0 0 ⟨0⟩ ⟨⟨0, 0, 0⟩, ()⟩ rfl ⟨0, 0, 0⟩ ⟨0, 0, 0, 0, 0⟩ 0 0 0 0 0 0

/-- C8 witness. -/
theorem C8_bit_bounds_witness :
    (⟨CTag.boundedRange, boundedTotalStmt 64 (simFrLimbs
        (lift_to_bls_nat (⟨0, 0, 0, 0, 0⟩ : NonZKState).x))⟩
      ∈ (build_bar_to_abar_cs (fun t => t) 0 0 0 0 ⟨0, 0, 0⟩
          ⟨0, 0, 0, 0, 0⟩ 0 0).cons)
    ∧ limbsVal (limbsZ (simFrLimbs 0)) < 2 ^ 64 :=
  ⟨(C8_bit_bounds (fun t => t) 0 0 0 0 ⟨0, 0, 0⟩ ⟨0, 0, 0, 0, 0⟩ 0 0).1,
   (C8_bit_bounds (fun t => t) 0 0 0 0 ⟨0, 0, 0⟩ ⟨0, 0, 0, 0, 0⟩ 0 0).2.2.2.2.1
     (simFrLimbs 0) (boundedTotalStmt_simFrLimbs_64 0 (by norm_num))⟩

end Zei
